import Mathlib

/-!
# TabMemFree: the idle-tab table, the periodic sweep and the enable/disable switch

A shallow embedding of `src/extension/src/background.js`.

* The global `tabs` object is an association list from tab id to `{ id, time }`,
  listed in the order `Object.keys` enumerates it (integer keys ascending).
* Numbers (`time`, `tick`, `timeout`) are integers, tab ids are natural numbers.
  JavaScript holds them as doubles: the section on JavaScript numbers models the
  double `+=` and `>=` and shows them equal to the integer ones while the values
  stay below `2 ^ 53`; beyond that, and for fractional settings, they differ.
* `store.js` is not among the sources: the store is the record of its four
  values, and an `await` on it takes effect at the step that resumes the caller.
* Timers fire at any moment while armed; their delay is not modelled.
* The asynchronous functions are cut at their suspension points (`await`, host
  callbacks); every segment between two suspension points is one atomic state
  transformer, and `step` runs one segment chosen by an `Event`.
* Host calls that the program only issues (`chrome.tabs.query`,
  `chrome.tabs.discard`, `setTimeout`, `clearTimeout`, `setIcon`, `setTitle`,
  `console.debug`) are recorded in the state.
-/

namespace TabMemFree

/-! ## Data model -/

/-- A host-assigned tab id. -/
abbrev TabId := Nat

/-- One value of the `tabs` object: `{ id: ..., time: ... }`. -/
structure Entry where
  id : TabId
  time : Int
deriving DecidableEq, Repr

/-- The global `tabs` object: its own properties in `Object.keys` order. -/
abbrev Tabs := List (TabId × Entry)

/-- One element of the array `chrome.tabs.query` hands to its callback. -/
structure FetchedTab where
  id : TabId
  active : Bool
  pinned : Bool
deriving DecidableEq, Repr

/-- `Object.keys(tabs)`. -/
def tabKeys (t : Tabs) : List TabId := t.map Prod.fst

/-- `tabs[k]`; `none` is `undefined`. -/
def tabGet : Tabs → TabId → Option Entry
  | [], _ => none
  | (k', e) :: r, k => if k' = k then some e else tabGet r k

/-- `delete tabs[k]`. -/
def tabDelete (t : Tabs) (k : TabId) : Tabs := t.filter (fun p => decide (p.1 ≠ k))

/-- `tabs[k] = e`: replaces the value of an existing property in place,
otherwise adds the property at its place in the ascending integer-key order. -/
def tabAssign : Tabs → TabId → Entry → Tabs
  | [], k, e => [(k, e)]
  | (k', e') :: r, k, e =>
    if k < k' then (k, e) :: (k', e') :: r
    else if k = k' then (k, e) :: r
    else (k', e') :: tabAssign r k e

/-- `tabs[k].time = v` on an existing property: the entry object is mutated in place. -/
def tabSetTime : Tabs → TabId → Int → Tabs
  | [], _, _ => []
  | (k', e) :: r, k, v =>
    if k' = k then (k', { e with time := v }) :: r else (k', e) :: tabSetTime r k v

/-- The structural invariant of the `tabs` object: the keys are listed in
strictly ascending order (so none occurs twice) and every entry stores the key
it is filed under in its `id` field. -/
def TabsWF (t : Tabs) : Prop :=
  (tabKeys t).Pairwise (fun a b => a < b) ∧ ∀ p ∈ t, p.2.id = p.1

instance (t : Tabs) : Decidable (TabsWF t) := by
  unfold TabsWF; infer_instance

/-! ## The settings store -/

/-- Modelled from the spec: the four values held by the settings store
(`store.js` is not among the sources); the field names are the setting keys
`active`, `timeout`, `tick`, `pinned`. -/
structure Settings where
  active : Bool
  timeout : Int
  tick : Int
  pinned : Bool
deriving DecidableEq, Repr

/-- `DEFAULT_SETTINGS`. -/
def DEFAULT_SETTINGS : Settings :=
  { active := true, timeout := 15 * 60, tick := 60, pinned := true }

/-! ## Program state -/

/-- Lines written by `console.debug`. -/
inductive Msg where
  | tick
  | discardError
  | notDiscarded (tabId : TabId)
  | discarded (tabId : TabId)
  | created (tabId : TabId)
  | removed (tabId : TabId)
  | activated (tabId : TabId)
  | clicked
  | started
deriving DecidableEq, Repr

/-- A suspended continuation: the rest of an asynchronous function after an
`await`, or a callback handed to the host. -/
inductive Cont where
  /-- `tick` waiting for `store.get([pinned, tick, timeout])`. -/
  | tickGet
  /-- The `chrome.tabs.query` callback of `tick`, closed over the settings it read. -/
  | tickQuery (skipPinned : Bool) (tickTime tabTimeout : Int)
  /-- `setExtensionState(newState)` waiting for `store.set`. -/
  | setStateSet (newState : Bool)
  /-- The `chrome.tabs.query` callback of `setExtensionState(true)`. -/
  | enableQuery
  /-- `setExtensionState(true)` waiting for `store.get(tick)`. -/
  | enableGet
  /-- The click listener waiting for `store.get(active)`. -/
  | clickGet
  /-- `start` waiting for `store.ready()`. -/
  | startReady
  /-- `start` waiting for `store.get(active)`. -/
  | startGet
  /-- The callback handed to `chrome.tabs.discard`. -/
  | discardCb (tabId : TabId)
deriving DecidableEq, Repr

/-- The globals of `background.js` together with the host state it acts on. -/
structure State where
  /-- The global `tabs`. -/
  tabs : Tabs
  /-- The global `ticker`: `none` is `null`, `some h` a timer handle. The host
  hands out positive integers as handles, so a handle is always truthy. -/
  ticker : Option Nat
  /-- The persisted settings. -/
  store : Settings
  /-- Handles of the host timers that are armed and have not fired. -/
  timers : List Nat
  /-- The handle the next `setTimeout` returns. -/
  nextTimer : Nat
  /-- Suspended continuations. -/
  conts : List Cont
  /-- Argument of the last `setIcon`. -/
  icon : Option String
  /-- Message key of the last `setTitle`. -/
  title : Option String
  /-- Number of `chrome.tabs.query` calls issued. -/
  queries : Nat
  /-- The ids passed to `chrome.tabs.discard`, in call order. -/
  discards : List TabId
  /-- The console. -/
  console : List Msg
deriving Repr

/-- `setTimeout(tick, ...)`: arms a fresh host timer and returns its handle. -/
def setTimeout (s : State) : State × Nat :=
  ({ s with timers := s.timers ++ [s.nextTimer], nextTimer := s.nextTimer + 1 }, s.nextTimer)

/-- `clearTimeout(h)`. -/
def clearTimeout (h : Nat) (s : State) : State :=
  { s with timers := s.timers.filter (fun x => decide (x ≠ h)) }

/-! ## `parkTab` -/

/-- What the host reports to the `chrome.tabs.discard` callback. -/
inductive DiscardOutcome where
  /-- `chrome.runtime.lastError` is set. -/
  | error
  /-- No error, and no tab is passed. -/
  | noTab
  /-- No error, and the discarded tab is passed. -/
  | tab
deriving DecidableEq, Repr

/-- The host call `chrome.tabs.discard(tabId, callback)`: the request is
recorded and its callback is left pending. -/
def discard (tabId : TabId) (s : State) : State :=
  { s with discards := s.discards ++ [tabId], conts := s.conts ++ [Cont.discardCb tabId] }

/-- `parkTab(tabId)`: `delete tabs[tabId]`, then the `chrome.tabs.discard` call. -/
def parkTab (tabId : TabId) (s : State) : State :=
  discard tabId { s with tabs := tabDelete s.tabs tabId }

/-- The callback `parkTab` hands to `chrome.tabs.discard`. -/
def discardCallback (tabId : TabId) (o : DiscardOutcome) (s : State) : State :=
  match o with
  | .error => { s with console := s.console ++ [Msg.discardError] }
  | .noTab => { s with console := s.console ++ [Msg.notDiscarded tabId] }
  | .tab => { s with console := s.console ++ [Msg.discarded tabId] }

/-! ## `tick` -/

/-- The set `activeTabs` built by the query callback of `tick`. -/
def activeTabs (skipPinned : Bool) (fetchedTabs : List FetchedTab) : List TabId :=
  (fetchedTabs.filter (fun tab => tab.active || (skipPinned && tab.pinned))).map (fun tab => tab.id)

/-- One iteration of `Object.keys(tabs).forEach(key => ...)`; `none` is the
`TypeError` raised when `tabs[key]` or `tabs[tabId]` is `undefined`. -/
def sweepKey (act : List TabId) (tickTime tabTimeout : Int) (key : TabId) (s : State) :
    Option State :=
  match tabGet s.tabs key with
  | none => none
  | some tab =>
    let tabId := tab.id
    match tabGet s.tabs tabId with
    | none => none
    | some e =>
      if tabId ∈ act then
        some { s with tabs := tabSetTime s.tabs tabId 0 }
      else
        let s1 := { s with tabs := tabSetTime s.tabs tabId (e.time + tickTime) }
        if e.time + tickTime ≥ tabTimeout then some (parkTab tabId s1) else some s1

/-- The `forEach` over the key snapshot; an exception ends the loop and keeps
the mutations made so far (`Except.error`). -/
def sweepKeys (act : List TabId) (tickTime tabTimeout : Int) :
    List TabId → State → Except State State
  | [], s => .ok s
  | key :: rest, s =>
    match sweepKey act tickTime tabTimeout key s with
    | none => .error s
    | some s1 => sweepKeys act tickTime tabTimeout rest s1

/-- The `chrome.tabs.query` callback inside `tick`: one sweep. -/
def sweep (skipPinned : Bool) (tickTime tabTimeout : Int) (fetchedTabs : List FetchedTab)
    (s : State) : State :=
  match sweepKeys (activeTabs skipPinned fetchedTabs) tickTime tabTimeout (tabKeys s.tabs) s with
  | .ok s1 => s1
  | .error s1 => s1

/-- `tick()` up to its first `await`: the console line, then the `store.get` call. -/
def tick (s : State) : State :=
  { s with console := s.console ++ [Msg.tick], conts := s.conts ++ [Cont.tickGet] }

/-- Modelled from the spec: `store.get` is asynchronous and resolves with the
values the store holds when it resolves (`store.js` is not among the sources).
This is `tick` from the resolution of `store.get` on: the timer is re-armed
and the host query is issued, its callback closed over the values read. -/
def tickAfterGet (s : State) : State :=
  let skipPinned := s.store.pinned
  let tickTime := s.store.tick
  let tabTimeout := s.store.timeout
  let (s1, h) := setTimeout s
  { s1 with
    ticker := some h
    queries := s1.queries + 1
    conts := s1.conts ++ [Cont.tickQuery skipPinned tickTime tabTimeout] }

/-! ## `setExtensionState` -/

/-- `setExtensionState(newState)` up to its first `await`: the `store.set` call. -/
def setExtensionState (newState : Bool) (s : State) : State :=
  { s with conts := s.conts ++ [Cont.setStateSet newState] }

/-- The callback of the `chrome.tabs.query` call in `setExtensionState(true)`. -/
def enableQueryCallback (fetchedTabs : List FetchedTab) (s : State) : State :=
  { s with
    tabs := fetchedTabs.foldl
      (fun t tab => tabAssign t tab.id { id := tab.id, time := 0 }) s.tabs }

/-- Modelled from the spec: `store.set` is asynchronous and the value is
persisted when it resolves (`store.js` is not among the sources).
This is `setExtensionState(newState)` from the resolution of `store.set` on,
up to its return (`newState = false`) or its next `await` (`newState = true`). -/
def setExtensionStateAfterSet (newState : Bool) (s : State) : State :=
  let s0 := { s with store := { s.store with active := newState } }
  if !newState then
    -- `if (ticker) clearTimeout(ticker)`: a handle is truthy, `null` is not
    let s1 := match s0.ticker with
      | some h => clearTimeout h s0
      | none => s0
    { s1 with
      ticker := none
      tabs := []
      icon := some "img/icon19_off.png"
      title := some "browserActionInactive" }
  else
    { s0 with
      queries := s0.queries + 1
      icon := some "img/icon19.png"
      title := some "browserActionActive"
      conts := s0.conts ++ [Cont.enableQuery, Cont.enableGet] }

/-- `setExtensionState(true)` from the resolution of `store.get(tick)` on:
`ticker = setTimeout(tick, tickTime * 1000)`. -/
def setExtensionStateAfterGet (s : State) : State :=
  let (s1, h) := setTimeout s
  { s1 with ticker := some h }

/-! ## Event listeners -/

/-- The `chrome.tabs.onCreated` listener. -/
def onCreated (tab : FetchedTab) (s : State) : State :=
  { s with
    console := s.console ++ [Msg.created tab.id]
    tabs := tabAssign s.tabs tab.id { id := tab.id, time := 0 } }

/-- The `chrome.tabs.onRemoved` listener. -/
def onRemoved (tabId : TabId) (s : State) : State :=
  { s with
    console := s.console ++ [Msg.removed tabId]
    tabs := tabDelete s.tabs tabId }

/-- The `chrome.tabs.onSelectionChanged` listener. -/
def onSelectionChanged (tabId : TabId) (s : State) : State :=
  { s with
    console := s.console ++ [Msg.activated tabId]
    tabs := tabAssign s.tabs tabId { id := tabId, time := 0 } }

/-- The `chrome.browserAction.onClicked` listener up to its first `await`. -/
def onClicked (s : State) : State :=
  { s with console := s.console ++ [Msg.clicked], conts := s.conts ++ [Cont.clickGet] }

/-- The click listener from the resolution of `store.get(active)` on. -/
def onClickedAfterGet (s : State) : State :=
  let isActive := s.store.active
  setExtensionState (!isActive) s

/-! ## `start` -/

/-- `start()` up to its first `await`. -/
def start (s : State) : State :=
  { s with console := s.console ++ [Msg.started], conts := s.conts ++ [Cont.startReady] }

/-- `start` from the resolution of `store.ready()` on: the `store.get` call. -/
def startAfterReady (s : State) : State :=
  { s with conts := s.conts ++ [Cont.startGet] }

/-- `start` from the resolution of `store.get(active)` on. -/
def startAfterGet (s : State) : State :=
  let isActive := s.store.active
  setExtensionState isActive s

/-- The globals as the module body sets them, before `start()` is called,
with `persisted` the settings found in storage. -/
def initial (persisted : Settings) : State :=
  { tabs := []
    ticker := none
    store := persisted
    timers := []
    nextTimer := 1
    conts := []
    icon := none
    title := none
    queries := 0
    discards := []
    console := [] }

/-! ## The step relation -/

/-- What the host can make happen next. -/
inductive Event where
  /-- The armed timer `h` fires: `tick()` is called. -/
  | timerFired (h : Nat)
  /-- The store promise that continuation `c` waits for resolves. -/
  | resolved (c : Cont)
  /-- The host answers the query whose callback is `c`. -/
  | queryReturned (c : Cont) (fetchedTabs : List FetchedTab)
  /-- The host answers a `chrome.tabs.discard` call. -/
  | discardReturned (tabId : TabId) (o : DiscardOutcome)
  /-- `chrome.tabs.onCreated`. -/
  | tabCreated (tab : FetchedTab)
  /-- `chrome.tabs.onRemoved`. -/
  | tabRemoved (tabId : TabId)
  /-- `chrome.tabs.onSelectionChanged`. -/
  | tabSelected (tabId : TabId)
  /-- `chrome.browserAction.onClicked`. -/
  | iconClicked
  /-- The options page stores new values of `timeout`, `tick` and `pinned`. -/
  | settingsEdited (timeout tick : Int) (pinned : Bool)
deriving DecidableEq, Repr

/-- One atomic segment of the program; `none` when the event cannot happen in `s`. -/
def step (s : State) : Event → Option State
  | .timerFired h =>
    if h ∈ s.timers then some (tick { s with timers := s.timers.erase h }) else none
  | .resolved c =>
    if c ∈ s.conts then
      let s1 := { s with conts := s.conts.erase c }
      match c with
      | .tickGet => some (tickAfterGet s1)
      | .setStateSet newState => some (setExtensionStateAfterSet newState s1)
      | .enableGet => some (setExtensionStateAfterGet s1)
      | .clickGet => some (onClickedAfterGet s1)
      | .startReady => some (startAfterReady s1)
      | .startGet => some (startAfterGet s1)
      | _ => none
    else none
  | .queryReturned c fetchedTabs =>
    if c ∈ s.conts then
      let s1 := { s with conts := s.conts.erase c }
      match c with
      | .tickQuery skipPinned tickTime tabTimeout =>
        some (sweep skipPinned tickTime tabTimeout fetchedTabs s1)
      | .enableQuery => some (enableQueryCallback fetchedTabs s1)
      | _ => none
    else none
  | .discardReturned tabId o =>
    if Cont.discardCb tabId ∈ s.conts then
      some (discardCallback tabId o { s with conts := s.conts.erase (Cont.discardCb tabId) })
    else none
  | .tabCreated tab => some (onCreated tab s)
  | .tabRemoved tabId => some (onRemoved tabId s)
  | .tabSelected tabId => some (onSelectionChanged tabId s)
  | .iconClicked => some (onClicked s)
  | .settingsEdited timeout tick pinned =>
    some { s with store := { s.store with timeout := timeout, tick := tick, pinned := pinned } }

/-- Runs a sequence of events; `none` when one of them cannot happen. -/
def run (s : State) : List Event → Option State
  | [] => some s
  | e :: es => (step s e).bind (fun s1 => run s1 es)

/-! ## Definitions used to state the properties -/

/-- What one sweep makes of one entry that is filed under its own id:
`none` when it is parked. -/
def sweepEntry (act : List TabId) (tickTime tabTimeout : Int) (p : TabId × Entry) :
    Option (TabId × Entry) :=
  if p.1 ∈ act then some (p.1, { p.2 with time := 0 })
  else if p.2.time + tickTime ≥ tabTimeout then none
  else some (p.1, { p.2 with time := p.2.time + tickTime })

/-- The keys one sweep parks, in order. -/
def parkedKeys (act : List TabId) (tickTime tabTimeout : Int) (t : Tabs) : List TabId :=
  (t.filter (fun p => decide (p.1 ∉ act) && decide (p.2.time + tickTime ≥ tabTimeout))).map
    Prod.fst

/-- A state whose `tabs` object is `t` and whose other components are those of
a freshly loaded extension with the default settings. -/
def stateWithTabs (t : Tabs) : State :=
  { initial DEFAULT_SETTINGS with tabs := t }

/-- The segments of the program that read or write `tabs`, as operations that
can be run one after another. -/
inductive TabOp where
  /-- The `onCreated` listener. -/
  | created (tab : FetchedTab)
  /-- The `onRemoved` listener. -/
  | removed (tabId : TabId)
  /-- The `onSelectionChanged` listener. -/
  | selected (tabId : TabId)
  /-- The query callback of a `tick` that read the given settings. -/
  | sweep (skipPinned : Bool) (tickTime tabTimeout : Int) (fetchedTabs : List FetchedTab)
  /-- The query callback of `setExtensionState(true)`. -/
  | enableQuery (fetchedTabs : List FetchedTab)
  /-- The body of `setExtensionState(newState)` after `store.set`. -/
  | setState (newState : Bool)
deriving DecidableEq, Repr

/-- Runs one operation. -/
def TabOp.run : TabOp → State → State
  | .created tab, s => onCreated tab s
  | .removed tabId, s => onRemoved tabId s
  | .selected tabId, s => onSelectionChanged tabId s
  | .sweep skipPinned tickTime tabTimeout fetchedTabs, s =>
    TabMemFree.sweep skipPinned tickTime tabTimeout fetchedTabs s
  | .enableQuery fetchedTabs, s => enableQueryCallback fetchedTabs s
  | .setState newState, s => setExtensionStateAfterSet newState s

/-- Runs a list of operations from left to right. -/
def runOps (s : State) (ops : List TabOp) : State :=
  ops.foldl (fun st op => op.run st) s

/-- Whether the operation is a sweep. -/
def TabOp.isSweep : TabOp → Bool
  | .sweep _ _ _ _ => true
  | _ => false

/-- The operation neither refreshes nor removes item `k`, does not disable the
extension, and, when it is a sweep, runs with the settings `skipPinned`,
`tickTime`, `tabTimeout` and does not find `k` exempt. -/
def TabOp.calmFor (skipPinned : Bool) (tickTime tabTimeout : Int) (k : TabId) : TabOp → Bool
  | .created tab => decide (tab.id ≠ k)
  | .removed tabId => decide (tabId ≠ k)
  | .selected tabId => decide (tabId ≠ k)
  | .sweep p t o fetchedTabs =>
    decide (p = skipPinned ∧ t = tickTime ∧ o = tabTimeout ∧ k ∉ activeTabs p fetchedTabs)
  | .enableQuery fetchedTabs => decide (k ∉ fetchedTabs.map (fun tab => tab.id))
  | .setState newState => newState

/-- The operation is no created, focus-changed or enable event for item `k`. -/
def TabOp.noReviveOf (k : TabId) : TabOp → Bool
  | .created tab => decide (tab.id ≠ k)
  | .selected tabId => decide (tabId ≠ k)
  | .enableQuery fetchedTabs => decide (k ∉ fetchedTabs.map (fun tab => tab.id))
  | _ => true

/-- The events that carry a called `setExtensionState(true)` to its end: the
`store.set` resolves, then the host answers the query and the `store.get` of the
tick length resolves, in either order. -/
def enableEvents (fetchedTabs : List FetchedTab) (queryFirst : Bool) : List Event :=
  if queryFirst then
    [.resolved (.setStateSet true), .queryReturned .enableQuery fetchedTabs, .resolved .enableGet]
  else
    [.resolved (.setStateSet true), .resolved .enableGet, .queryReturned .enableQuery fetchedTabs]

/-- A run of host events from the module start with the default settings: the
extension is enabled with tabs 2 and 1 enumerated, tab 7 is created, tab 2 is
focused and tab 1 is removed. -/
def sampleRun : List Event :=
  [.resolved .startReady, .resolved .startGet, .resolved (.setStateSet true),
    .queryReturned .enableQuery [⟨2, false, false⟩, ⟨1, true, false⟩],
    .resolved .enableGet, .tabCreated ⟨7, true, false⟩, .tabSelected 2, .tabRemoved 1]

/-- The state `sampleRun` ends in. -/
def sampleState : State :=
  { tabs := [(2, ⟨2, 0⟩), (7, ⟨7, 0⟩)]
    ticker := some 1
    store := DEFAULT_SETTINGS
    timers := [1]
    nextTimer := 2
    conts := []
    icon := some "img/icon19.png"
    title := some "browserActionActive"
    queries := 1
    discards := []
    console := [Msg.started, Msg.created 7, Msg.activated 2, Msg.removed 1] }

/-- The event is no sweep, or a sweep whose `tick` setting is not negative. -/
def Event.sweepTickNonneg : Event → Bool
  | .queryReturned (.tickQuery _ tickTime _) _ => decide (0 ≤ tickTime)
  | _ => true

/-- The run `sampleRun` followed by one firing of the timer: `tick` reads the
settings and its query callback sweeps with tab 2 active. -/
def sampleSweepRun : List Event :=
  sampleRun ++ [.timerFired 1, .resolved .tickGet,
    .queryReturned (.tickQuery true 60 900) [⟨2, true, false⟩, ⟨7, false, false⟩]]

/-- The state `sampleSweepRun` ends in. -/
def sampleSweepState : State :=
  { tabs := [(2, ⟨2, 0⟩), (7, ⟨7, 60⟩)]
    ticker := some 2
    store := DEFAULT_SETTINGS
    timers := [2]
    nextTimer := 3
    conts := []
    icon := some "img/icon19.png"
    title := some "browserActionActive"
    queries := 2
    discards := []
    console := [Msg.started, Msg.created 7, Msg.activated 2, Msg.removed 1, Msg.tick] }

/-- The event gives item `k` an entry: it is created, it is focused, or an
enable query enumerates it. -/
def Event.revives (k : TabId) : Event → Bool
  | .tabCreated tab => decide (tab.id = k)
  | .tabSelected tabId => decide (tabId = k)
  | .queryReturned .enableQuery fetchedTabs => decide (k ∈ fetchedTabs.map (fun tab => tab.id))
  | _ => false

/-- The event takes the entry of item `k` away for good: the item is removed,
or a disable transition completes. -/
def Event.clears (k : TabId) : Event → Bool
  | .tabRemoved tabId => decide (tabId = k)
  | .resolved (.setStateSet false) => true
  | _ => false

/-- Whether, after the events `es`, item `k` has been given an entry and has
since then neither been removed nor been cleared by a disable; `b` is the
answer before `es`. -/
def knownAfter (k : TabId) : Bool → List Event → Bool
  | b, [] => b
  | b, e :: es =>
    knownAfter k (if e.revives k then true else if e.clears k then false else b) es

/-- The events of one toggle run to its end from a state whose persisted flag
is `isActive`: the click, the read of the flag, and the transition the click
listener then calls. -/
def toggleEvents (isActive : Bool) (fetchedTabs : List FetchedTab) (queryFirst : Bool) :
    List Event :=
  [.iconClicked, .resolved .clickGet] ++
    (if isActive then [.resolved (.setStateSet false)] else enableEvents fetchedTabs queryFirst)

/-! ## JavaScript numbers

`time`, `tick` and `timeout` are JavaScript numbers, that is IEEE 754 binary64
values, and lines 69-70 add and compare them as such. The embedding above
computes on integers; this section models the double-precision `+=` and `>=`
themselves, for finite values away from overflow and underflow, to state where
the two agree (integers of magnitude below `2 ^ 53`) and where they do not. -/

/-- A finite double: the value `m * 2 ^ e`. -/
structure Dbl where
  m : Int
  e : Int
deriving DecidableEq, Repr

/-- The value of a double as a rational number. -/
def Dbl.toRat (x : Dbl) : ℚ := (x.m : ℚ) * (2 : ℚ) ^ x.e

/-- The number of low bits `n` has beyond 53 significant ones: how often `n`
must be halved to come below `2 ^ 53`. The first argument bounds the count and
is taken large enough (`n` itself). -/
def excessBits : Nat → Nat → Nat
  | 0, _ => 0
  | fuel + 1, n => if n < 2 ^ 53 then 0 else excessBits fuel (n / 2) + 1

/-- Rounds a natural number to 53 significant bits, to nearest and ties to
even: the result `(q, sh)` stands for `q * 2 ^ sh`. -/
def roundSig (n : Nat) : Nat × Nat :=
  if n < 2 ^ 53 then (n, 0)
  else
    let sh := excessBits n n
    let q := n / 2 ^ sh
    let r := n % 2 ^ sh
    let half := 2 ^ (sh - 1)
    if r > half ∨ (r = half ∧ q % 2 = 1) then (q + 1, sh) else (q, sh)

/-- The double nearest to `m * 2 ^ e`. -/
def Dbl.round (m : Int) (e : Int) : Dbl :=
  { m := Int.sign m * ((roundSig m.natAbs).1 : Int), e := e + ((roundSig m.natAbs).2 : Int) }

/-- The double an integer literal or integer setting denotes. -/
def Dbl.ofInt (a : Int) : Dbl := Dbl.round a 0

/-- Double addition, the `+` of `tabs[tabId].time += tickTime`: the exact sum,
rounded. -/
def Dbl.add (x y : Dbl) : Dbl :=
  Dbl.round (x.m * 2 ^ (x.e - min x.e y.e).toNat + y.m * 2 ^ (y.e - min x.e y.e).toNat)
    (min x.e y.e)

/-- Double comparison `x <= y`; `tabs[tabId].time >= tabTimeout` is
`Dbl.le tabTimeout time`. -/
def Dbl.le (x y : Dbl) : Bool :=
  decide (x.m * 2 ^ (x.e - min x.e y.e).toNat ≤ y.m * 2 ^ (y.e - min x.e y.e).toNat)

/-- The idle time of an entry that starts at `time: 0` and goes through the
`+=` of line 69 in `n` sweeps, in double arithmetic. -/
def idleAfterDouble (tickTime : Dbl) : Nat → Dbl
  | 0 => Dbl.ofInt 0
  | n + 1 => (idleAfterDouble tickTime n).add tickTime

/-- The double nearest to 0.1, `0x3FB999999999999A`. -/
def Dbl.oneTenth : Dbl := { m := 7205759403792794, e := -56 }

/-- The double nearest to 0.8, `0x3FE999999999999A`. -/
def Dbl.eightTenths : Dbl := { m := 7205759403792794, e := -53 }

/-! ## Lemmas on the table operations -/

theorem tabGet_append_of_not_mem (pre suf : Tabs) (k : TabId) (h : k ∉ tabKeys pre) :
    tabGet (pre ++ suf) k = tabGet suf k := by
  induction pre with
  | nil => rfl
  | cons p pre ih =>
    obtain ⟨k', e'⟩ := p
    simp only [tabKeys, List.map_cons, List.mem_cons, not_or] at h
    have hne : ¬ k' = k := fun hh => h.1 hh.symm
    simp only [List.cons_append, tabGet, hne, if_false]
    exact ih h.2

theorem tabGet_cons_self (k : TabId) (e : Entry) (r : Tabs) : tabGet ((k, e) :: r) k = some e := by
  simp [tabGet]

theorem tabGet_eq_none_of_not_mem (t : Tabs) (k : TabId) (h : k ∉ tabKeys t) :
    tabGet t k = none := by
  induction t with
  | nil => rfl
  | cons p t ih =>
    obtain ⟨k', e'⟩ := p
    simp only [tabKeys, List.map_cons, List.mem_cons, not_or] at h
    have hne : ¬ k' = k := fun hh => h.1 hh.symm
    simp only [tabGet, hne, if_false]
    exact ih h.2

theorem mem_tabKeys_of_tabGet (t : Tabs) (k : TabId) (e : Entry) (h : tabGet t k = some e) :
    (k, e) ∈ t := by
  induction t with
  | nil => simp [tabGet] at h
  | cons p t ih =>
    obtain ⟨k', e'⟩ := p
    by_cases hk : k' = k
    · subst hk
      simp [tabGet] at h
      simp [h]
    · simp only [tabGet, hk, if_false] at h
      exact List.mem_cons_of_mem _ (ih h)

theorem tabSetTime_append_of_not_mem (pre r : Tabs) (k : TabId) (e : Entry) (v : Int)
    (h : k ∉ tabKeys pre) :
    tabSetTime (pre ++ (k, e) :: r) k v = pre ++ (k, { e with time := v }) :: r := by
  induction pre with
  | nil => simp [tabSetTime]
  | cons p pre ih =>
    obtain ⟨k', e'⟩ := p
    simp only [tabKeys, List.map_cons, List.mem_cons, not_or] at h
    have hne : ¬ k' = k := fun hh => h.1 hh.symm
    simp only [List.cons_append, tabSetTime, hne, if_false]
    exact congrArg _ (ih h.2)

theorem tabDelete_of_not_mem (t : Tabs) (k : TabId) (h : k ∉ tabKeys t) : tabDelete t k = t := by
  unfold tabDelete
  rw [List.filter_eq_self]
  intro p hp
  have : p.1 ≠ k := by
    intro hh
    exact h (hh ▸ List.mem_map_of_mem Prod.fst hp)
  simpa using this

theorem tabDelete_append_of_not_mem (pre r : Tabs) (k : TabId) (e : Entry)
    (h1 : k ∉ tabKeys pre) (h2 : k ∉ tabKeys r) :
    tabDelete (pre ++ (k, e) :: r) k = pre ++ r := by
  have a := tabDelete_of_not_mem pre k h1
  have b := tabDelete_of_not_mem r k h2
  unfold tabDelete at *
  rw [List.filter_append, List.filter_cons, a, b]
  simp


theorem sweepKeys_closed (act : List TabId) (tickTime tabTimeout : Int) :
    ∀ (suf pre : Tabs) (s : State), s.tabs = pre ++ suf → (tabKeys (pre ++ suf)).Nodup →
      (∀ p ∈ suf, p.2.id = p.1) →
      sweepKeys act tickTime tabTimeout (tabKeys suf) s = .ok
        { s with
          tabs := pre ++ suf.filterMap (sweepEntry act tickTime tabTimeout)
          discards := s.discards ++ parkedKeys act tickTime tabTimeout suf
          conts := s.conts ++ (parkedKeys act tickTime tabTimeout suf).map Cont.discardCb } := by
  intro suf
  induction suf with
  | nil =>
    intro pre s hs _ _
    simp only [tabKeys, List.map_nil, sweepKeys, List.filterMap_nil, parkedKeys, List.filter_nil,
      List.append_nil]
    rw [← List.append_nil pre, ← hs]
  | cons p suf ih =>
    intro pre s hs hnd hid
    obtain ⟨k, ⟨eid, etime⟩⟩ := p
    have hek : k = eid := (hid (k, ⟨eid, etime⟩) (List.mem_cons_self _ _)).symm
    subst hek
    have hnd' : (tabKeys pre ++ k :: tabKeys suf).Nodup := by
      simpa [tabKeys] using hnd
    have hkpre : k ∉ tabKeys pre := by
      intro hmem
      exact (List.nodup_append.mp hnd').2.2 hmem (List.mem_cons_self _ _)
    have hksuf : k ∉ tabKeys suf := (List.nodup_cons.mp (List.nodup_append.mp hnd').2.1).1
    have hget : tabGet s.tabs k = some ⟨k, etime⟩ := by
      rw [hs, tabGet_append_of_not_mem _ _ _ hkpre, tabGet_cons_self]
    have hnd2 : ∀ e2 : Entry, (tabKeys ((pre ++ [(k, e2)]) ++ suf)).Nodup := by
      intro e2
      simpa [tabKeys] using hnd
    have hnd3 : (tabKeys (pre ++ suf)).Nodup := by
      have := hnd'
      simp only [tabKeys, List.map_append]
      exact (List.nodup_cons.mp (List.nodup_middle.mp this)).2
    have hid' : ∀ p ∈ suf, p.2.id = p.1 := fun p hp => hid p (List.mem_cons_of_mem _ hp)
    simp only [tabKeys, List.map_cons, sweepKeys]
    by_cases hact : k ∈ act
    · have hstep : sweepKey act tickTime tabTimeout k s
          = some { s with tabs := (pre ++ [(k, ⟨k, 0⟩)]) ++ suf } := by
        simp only [sweepKey, hget, hact, if_true]
        rw [hs, tabSetTime_append_of_not_mem _ _ _ _ _ hkpre]
        simp
      rw [hstep]
      dsimp only
      have := ih (pre ++ [(k, ⟨k, 0⟩)])
        { s with tabs := (pre ++ [(k, ⟨k, 0⟩)]) ++ suf } rfl (hnd2 _) hid'
      simp only [tabKeys] at this
      rw [this]
      simp [sweepEntry, parkedKeys, hact]
    · by_cases hexp : etime + tickTime ≥ tabTimeout
      · have hstep : sweepKey act tickTime tabTimeout k s
            = some { s with
                tabs := pre ++ suf
                discards := s.discards ++ [k]
                conts := s.conts ++ [Cont.discardCb k] } := by
          simp only [sweepKey, hget, hact, if_false, hexp, if_true, parkTab]
          rw [hs, tabSetTime_append_of_not_mem _ _ _ _ _ hkpre,
            tabDelete_append_of_not_mem _ _ _ _ hkpre hksuf]
          rfl
        rw [hstep]
        dsimp only
        have := ih pre { s with
                tabs := pre ++ suf
                discards := s.discards ++ [k]
                conts := s.conts ++ [Cont.discardCb k] } rfl hnd3 hid'
        simp only [tabKeys] at this
        rw [this]
        simp [sweepEntry, parkedKeys, hact, hexp]
      · have hstep : sweepKey act tickTime tabTimeout k s
            = some { s with tabs := (pre ++ [(k, ⟨k, etime + tickTime⟩)]) ++ suf } := by
          simp only [sweepKey, hget, hact, if_false, hexp]
          rw [hs, tabSetTime_append_of_not_mem _ _ _ _ _ hkpre]
          simp
        rw [hstep]
        dsimp only
        have := ih (pre ++ [(k, ⟨k, etime + tickTime⟩)])
          { s with tabs := (pre ++ [(k, ⟨k, etime + tickTime⟩)]) ++ suf }
          rfl (hnd2 _) hid'
        simp only [tabKeys] at this
        rw [this]
        simp [sweepEntry, parkedKeys, hact, hexp]

theorem TabsWF.nodup {t : Tabs} (h : TabsWF t) : (tabKeys t).Nodup :=
  h.1.imp (fun hab => Nat.ne_of_lt hab)

theorem sweep_closed (skipPinned : Bool) (tickTime tabTimeout : Int)
    (fetchedTabs : List FetchedTab) (s : State) (hwf : TabsWF s.tabs) :
    sweep skipPinned tickTime tabTimeout fetchedTabs s =
      { s with
        tabs := s.tabs.filterMap (sweepEntry (activeTabs skipPinned fetchedTabs) tickTime tabTimeout)
        discards := s.discards ++
          parkedKeys (activeTabs skipPinned fetchedTabs) tickTime tabTimeout s.tabs
        conts := s.conts ++
          (parkedKeys (activeTabs skipPinned fetchedTabs) tickTime tabTimeout s.tabs).map
            Cont.discardCb } := by
  have := sweepKeys_closed (activeTabs skipPinned fetchedTabs) tickTime tabTimeout s.tabs [] s
    rfl hwf.nodup hwf.2
  simp only [sweep, this, List.nil_append]


theorem tabGet_of_mem (t : Tabs) (k : TabId) (e : Entry) (hnd : (tabKeys t).Nodup)
    (h : (k, e) ∈ t) : tabGet t k = some e := by
  induction t with
  | nil => simp at h
  | cons p t ih =>
    obtain ⟨k', e'⟩ := p
    simp only [tabKeys, List.map_cons, List.nodup_cons] at hnd
    rcases List.mem_cons.mp h with heq | hmem
    · cases heq
      exact tabGet_cons_self _ _ _
    · have hne : ¬ k' = k := by
        intro hh
        subst hh
        exact hnd.1 (List.mem_map_of_mem Prod.fst hmem)
      simp only [tabGet, hne, if_false]
      exact ih hnd.2 hmem

theorem mem_tabKeys_filterMap_sweepEntry (act : List TabId) (tickTime tabTimeout : Int)
    (t : Tabs) (k : TabId)
    (h : k ∈ tabKeys (t.filterMap (sweepEntry act tickTime tabTimeout))) : k ∈ tabKeys t := by
  simp only [tabKeys, List.mem_map, List.mem_filterMap] at h ⊢
  obtain ⟨q, ⟨p, hp, hpq⟩, hq⟩ := h
  refine ⟨p, hp, ?_⟩
  unfold sweepEntry at hpq
  split_ifs at hpq <;> simp at hpq <;> rw [← hq, ← hpq]

theorem tabGet_filterMap_sweepEntry (act : List TabId) (tickTime tabTimeout : Int)
    (t : Tabs) (k : TabId) (e : Entry) (hnd : (tabKeys t).Nodup) (h : tabGet t k = some e) :
    tabGet (t.filterMap (sweepEntry act tickTime tabTimeout)) k
      = (sweepEntry act tickTime tabTimeout (k, e)).map Prod.snd := by
  induction t with
  | nil => simp [tabGet] at h
  | cons p t ih =>
    obtain ⟨k', e'⟩ := p
    simp only [tabKeys, List.map_cons, List.nodup_cons] at hnd
    by_cases hk : k' = k
    · subst hk
      simp only [tabGet, if_true, Option.some.injEq] at h
      subst h
      rw [List.filterMap_cons]
      cases hse : sweepEntry act tickTime tabTimeout (k', e') with
      | none =>
        simp only [Option.map_none']
        apply tabGet_eq_none_of_not_mem
        intro hmem
        exact hnd.1 (mem_tabKeys_filterMap_sweepEntry _ _ _ _ _ hmem)
      | some q =>
        have hq : q.1 = k' := by
          unfold sweepEntry at hse
          split_ifs at hse <;> simp at hse <;> rw [← hse]
        obtain ⟨q1, q2⟩ := q
        simp only at hq
        subst hq
        simp [tabGet]
    · simp only [tabGet, hk, if_false] at h
      rw [List.filterMap_cons]
      cases hse : sweepEntry act tickTime tabTimeout (k', e') with
      | none => exact ih hnd.2 h
      | some q =>
        have hq : q.1 = k' := by
          unfold sweepEntry at hse
          split_ifs at hse <;> simp at hse <;> rw [← hse]
        obtain ⟨q1, q2⟩ := q
        simp only at hq
        subst hq
        simp only [tabGet, hk, if_false]
        exact ih hnd.2 h

theorem tabGet_of_mem_tabKeys (t : Tabs) (k : TabId) (h : k ∈ tabKeys t) :
    ∃ e, tabGet t k = some e := by
  induction t with
  | nil => simp [tabKeys] at h
  | cons p t ih =>
    obtain ⟨k', e'⟩ := p
    by_cases hk : k' = k
    · exact ⟨e', by simp [tabGet, hk]⟩
    · simp only [tabKeys, List.map_cons, List.mem_cons] at h
      rcases h with h | h
      · exact absurd h.symm hk
      · obtain ⟨e, he⟩ := ih h
        exact ⟨e, by simp [tabGet, hk, he]⟩

theorem tabGet_filterMap_sweepEntry_none (act : List TabId) (tickTime tabTimeout : Int)
    (t : Tabs) (k : TabId) (h : tabGet t k = none) :
    tabGet (t.filterMap (sweepEntry act tickTime tabTimeout)) k = none := by
  apply tabGet_eq_none_of_not_mem
  intro hmem
  obtain ⟨e, he⟩ := tabGet_of_mem_tabKeys t k (mem_tabKeys_filterMap_sweepEntry _ _ _ _ _ hmem)
  rw [h] at he
  cases he

theorem parkedKeys_nodup (act : List TabId) (tickTime tabTimeout : Int) (t : Tabs)
    (hnd : (tabKeys t).Nodup) : (parkedKeys act tickTime tabTimeout t).Nodup := by
  unfold parkedKeys
  exact List.Nodup.sublist (List.Sublist.map _ (List.filter_sublist _)) hnd

theorem mem_parkedKeys (act : List TabId) (tickTime tabTimeout : Int) (t : Tabs)
    (k : TabId) (e : Entry) (hnd : (tabKeys t).Nodup) (h : tabGet t k = some e) :
    k ∈ parkedKeys act tickTime tabTimeout t ↔ k ∉ act ∧ e.time + tickTime ≥ tabTimeout := by
  unfold parkedKeys
  simp only [List.mem_map, List.mem_filter, Bool.and_eq_true, decide_eq_true_eq]
  constructor
  · rintro ⟨⟨k', e'⟩, ⟨hp, h1, h2⟩, hk⟩
    simp only at hk
    subst hk
    have := tabGet_of_mem t k' e' hnd hp
    rw [h] at this
    cases this
    exact ⟨h1, h2⟩
  · rintro ⟨h1, h2⟩
    exact ⟨(k, e), ⟨mem_tabKeys_of_tabGet t k e h, h1, h2⟩, rfl⟩

theorem not_mem_parkedKeys_of_not_mem (act : List TabId) (tickTime tabTimeout : Int) (t : Tabs)
    (k : TabId) (h : k ∉ tabKeys t) : k ∉ parkedKeys act tickTime tabTimeout t := by
  intro hmem
  unfold parkedKeys at hmem
  exact h ((List.Sublist.map _ (List.filter_sublist _)).subset hmem)

theorem entry_id_of_tabGet {t : Tabs} (hwf : TabsWF t) {k : TabId} {e : Entry}
    (h : tabGet t k = some e) : e.id = k :=
  hwf.2 (k, e) (mem_tabKeys_of_tabGet t k e h)

/-- The effect of one sweep on an entry that is not exempt. -/
theorem sweep_of_not_exempt (skipPinned : Bool) (tickTime tabTimeout : Int)
    (fetchedTabs : List FetchedTab) (s : State) (k : TabId) (e : Entry)
    (hwf : TabsWF s.tabs) (hk : tabGet s.tabs k = some e)
    (hex : e.id ∉ activeTabs skipPinned fetchedTabs) :
    (e.time + tickTime ≥ tabTimeout →
      tabGet (sweep skipPinned tickTime tabTimeout fetchedTabs s).tabs k = none ∧
      ∃ d, (sweep skipPinned tickTime tabTimeout fetchedTabs s).discards = s.discards ++ d ∧
        d.count e.id = 1) ∧
    (¬ e.time + tickTime ≥ tabTimeout →
      tabGet (sweep skipPinned tickTime tabTimeout fetchedTabs s).tabs k
        = some { e with time := e.time + tickTime } ∧
      ∃ d, (sweep skipPinned tickTime tabTimeout fetchedTabs s).discards = s.discards ++ d ∧
        e.id ∉ d) := by
  have hid := entry_id_of_tabGet hwf hk
  rw [hid] at hex
  rw [sweep_closed _ _ _ _ _ hwf]
  constructor
  · intro hge
    refine ⟨?_, _, rfl, ?_⟩
    · show tabGet (s.tabs.filterMap _) k = _
      rw [tabGet_filterMap_sweepEntry _ _ _ _ _ _ hwf.nodup hk]
      simp [sweepEntry, hex, hge]
    · rw [hid]
      exact List.count_eq_one_of_mem (parkedKeys_nodup _ _ _ _ hwf.nodup)
        ((mem_parkedKeys _ _ _ _ _ _ hwf.nodup hk).mpr ⟨hex, hge⟩)
  · intro hlt
    refine ⟨?_, _, rfl, ?_⟩
    · show tabGet (s.tabs.filterMap _) k = _
      rw [tabGet_filterMap_sweepEntry _ _ _ _ _ _ hwf.nodup hk]
      simp [sweepEntry, hex, hlt]
    · rw [hid, mem_parkedKeys _ _ _ _ _ _ hwf.nodup hk]
      exact fun h => hlt h.2

theorem not_mem_activeTabs_of_not_fetched (skipPinned : Bool) (fetchedTabs : List FetchedTab)
    (k : TabId) (h : k ∉ fetchedTabs.map (fun tab => tab.id)) :
    k ∉ activeTabs skipPinned fetchedTabs := by
  intro hmem
  apply h
  unfold activeTabs at hmem
  exact (List.Sublist.map _ (List.filter_sublist _)).subset hmem

theorem tabGet_tabAssign_self (t : Tabs) (k : TabId) (e : Entry) :
    tabGet (tabAssign t k e) k = some e := by
  induction t with
  | nil => simp [tabAssign, tabGet]
  | cons p t ih =>
    obtain ⟨k', e'⟩ := p
    unfold tabAssign
    split_ifs with h1 h2
    · simp [tabGet]
    · simp [tabGet]
    · have hne : ¬ k' = k := fun hh => h2 hh.symm
      simp only [tabGet, hne, if_false]
      exact ih

theorem tabGet_tabAssign_ne (t : Tabs) (k j : TabId) (e : Entry) (hj : j ≠ k) :
    tabGet (tabAssign t k e) j = tabGet t j := by
  induction t with
  | nil =>
    have : ¬ k = j := fun hh => hj hh.symm
    simp [tabAssign, tabGet, this]
  | cons p t ih =>
    obtain ⟨k', e'⟩ := p
    unfold tabAssign
    split_ifs with h1 h2
    · have : ¬ k = j := fun hh => hj hh.symm
      simp [tabGet, this]
    · subst h2
      have : ¬ k = j := fun hh => hj hh.symm
      simp [tabGet, this]
    · by_cases hk : k' = j
      · simp [tabGet, hk]
      · simp only [tabGet, hk, if_false]
        exact ih

theorem tabAssign_idem (t : Tabs) (k : TabId) (e : Entry) :
    tabAssign (tabAssign t k e) k e = tabAssign t k e := by
  induction t with
  | nil => simp [tabAssign]
  | cons p t ih =>
    obtain ⟨k', e'⟩ := p
    by_cases h1 : k < k'
    · simp [tabAssign, h1]
    · by_cases h2 : k = k'
      · subst h2
        simp [tabAssign]
      · simp only [tabAssign, h1, h2, if_false]
        rw [ih]

theorem mem_tabKeys_tabAssign (t : Tabs) (k j : TabId) (e : Entry) :
    j ∈ tabKeys (tabAssign t k e) ↔ j = k ∨ j ∈ tabKeys t := by
  induction t with
  | nil => simp [tabAssign, tabKeys]
  | cons p t ih =>
    obtain ⟨k', e'⟩ := p
    unfold tabAssign
    split_ifs with h1 h2
    · simp [tabKeys]
    · subst h2
      simp [tabKeys]
    · simp only [tabKeys, List.map_cons, List.mem_cons] at ih ⊢
      rw [ih]
      tauto

theorem tabGet_tabDelete_self (t : Tabs) (k : TabId) : tabGet (tabDelete t k) k = none := by
  apply tabGet_eq_none_of_not_mem
  simp [tabKeys, tabDelete, List.mem_filter]

theorem tabGet_tabDelete_ne (t : Tabs) (k j : TabId) (hj : j ≠ k) :
    tabGet (tabDelete t k) j = tabGet t j := by
  induction t with
  | nil => rfl
  | cons p t ih =>
    obtain ⟨k', e'⟩ := p
    unfold tabDelete at ih ⊢
    by_cases hk : k' = k
    · subst hk
      have hne : ¬ k' = j := fun hh => hj hh.symm
      simp only [List.filter_cons, ne_eq, not_true_eq_false, decide_False, Bool.false_eq_true,
        if_false, tabGet, hne]
      exact ih
    · by_cases hkj : k' = j
      · subst hkj
        simp [List.filter_cons, hj, tabGet]
      · simp only [List.filter_cons, ne_eq, hk, not_false_eq_true, decide_True, if_true, tabGet,
          hkj, if_false]
        exact ih

theorem not_mem_tabKeys_of_tabGet_none (t : Tabs) (k : TabId) (h : tabGet t k = none) :
    k ∉ tabKeys t := by
  intro hmem
  obtain ⟨e, he⟩ := tabGet_of_mem_tabKeys t k hmem
  rw [h] at he
  cases he

theorem tabDelete_idem (t : Tabs) (k : TabId) : tabDelete (tabDelete t k) k = tabDelete t k := by
  simp [tabDelete, List.filter_filter]

theorem tabKeys_tabDelete_subset (t : Tabs) (k j : TabId) (h : j ∈ tabKeys (tabDelete t k)) :
    j ∈ tabKeys t :=
  (List.Sublist.map _ (List.filter_sublist _)).subset h

theorem tabKeys_tabSetTime (t : Tabs) (k : TabId) (v : Int) :
    tabKeys (tabSetTime t k v) = tabKeys t := by
  induction t with
  | nil => rfl
  | cons p t ih =>
    obtain ⟨k', e'⟩ := p
    unfold tabSetTime
    split_ifs with h
    · simp [tabKeys]
    · simp only [tabKeys, List.map_cons] at ih ⊢
      rw [ih]

theorem mem_tabAssign (t : Tabs) (k : TabId) (e : Entry) (p : TabId × Entry)
    (h : p ∈ tabAssign t k e) : p = (k, e) ∨ p ∈ t := by
  induction t with
  | nil => simpa [tabAssign] using h
  | cons q t ih =>
    obtain ⟨k', e'⟩ := q
    unfold tabAssign at h
    split_ifs at h with h1 h2
    · simpa using h
    · rcases List.mem_cons.mp h with h | h
      · exact Or.inl h
      · exact Or.inr (List.mem_cons_of_mem _ h)
    · rcases List.mem_cons.mp h with h | h
      · exact Or.inr (h ▸ List.mem_cons_self _ _)
      · rcases ih h with h | h
        · exact Or.inl h
        · exact Or.inr (List.mem_cons_of_mem _ h)

theorem TabsWF_tabAssign (t : Tabs) (k : TabId) (e : Entry) (hwf : TabsWF t) (he : e.id = k) :
    TabsWF (tabAssign t k e) := by
  refine ⟨?_, ?_⟩
  · have hs := hwf.1
    clear hwf
    induction t with
    | nil => simp [tabAssign, tabKeys]
    | cons q t ih =>
      obtain ⟨k', e'⟩ := q
      simp only [tabKeys, List.map_cons, List.pairwise_cons] at hs
      unfold tabAssign
      split_ifs with h1 h2
      · simp only [tabKeys, List.map_cons, List.pairwise_cons, List.mem_cons]
        refine ⟨?_, hs⟩
        rintro x (hx | hx)
        · subst hx
          exact h1
        · exact Nat.lt_trans h1 (hs.1 x hx)
      · subst h2
        simpa [tabKeys] using hs
      · simp only [tabKeys, List.map_cons, List.pairwise_cons]
        refine ⟨?_, ih hs.2⟩
        intro x hx
        rcases (mem_tabKeys_tabAssign t k x e).mp hx with hx | hx
        · subst hx
          exact Nat.lt_of_le_of_ne (Nat.le_of_not_lt h1) (fun hh => h2 hh.symm)
        · exact hs.1 x hx
  · intro p hp
    rcases mem_tabAssign t k e p hp with h | h
    · rw [h]
      exact he
    · exact hwf.2 p h

theorem TabsWF_tabDelete (t : Tabs) (k : TabId) (hwf : TabsWF t) : TabsWF (tabDelete t k) := by
  refine ⟨?_, ?_⟩
  · exact List.Pairwise.sublist (List.Sublist.map _ (List.filter_sublist _)) hwf.1
  · intro p hp
    exact hwf.2 p (List.mem_of_mem_filter hp)

theorem tabKeys_filterMap_sweepEntry_sublist (act : List TabId) (tickTime tabTimeout : Int)
    (t : Tabs) :
    (tabKeys (t.filterMap (sweepEntry act tickTime tabTimeout))).Sublist (tabKeys t) := by
  induction t with
  | nil => simp [tabKeys]
  | cons p t ih =>
    rw [List.filterMap_cons]
    cases hse : sweepEntry act tickTime tabTimeout p with
    | none =>
      simp only [tabKeys, List.map_cons] at ih ⊢
      exact List.Sublist.cons _ ih
    | some q =>
      have hq : q.1 = p.1 := by
        unfold sweepEntry at hse
        split_ifs at hse <;> simp at hse <;> rw [← hse]
      simp only [tabKeys, List.map_cons, hq] at ih ⊢
      exact List.Sublist.cons₂ _ ih

theorem TabsWF_sweep (skipPinned : Bool) (tickTime tabTimeout : Int)
    (fetchedTabs : List FetchedTab) (s : State) (hwf : TabsWF s.tabs) :
    TabsWF (sweep skipPinned tickTime tabTimeout fetchedTabs s).tabs := by
  rw [sweep_closed _ _ _ _ _ hwf]
  refine ⟨?_, ?_⟩
  · exact List.Pairwise.sublist (tabKeys_filterMap_sweepEntry_sublist _ _ _ _) hwf.1
  · intro p hp
    obtain ⟨q, hq, hqp⟩ := List.mem_filterMap.mp hp
    have := hwf.2 q hq
    unfold sweepEntry at hqp
    split_ifs at hqp <;> simp at hqp <;> rw [← hqp] <;> exact this

theorem TabsWF_seed (fetchedTabs : List FetchedTab) (t : Tabs) (hwf : TabsWF t) :
    TabsWF (fetchedTabs.foldl (fun t tab => tabAssign t tab.id { id := tab.id, time := 0 }) t) := by
  induction fetchedTabs generalizing t with
  | nil => exact hwf
  | cons tab rest ih =>
    simp only [List.foldl_cons]
    exact ih _ (TabsWF_tabAssign t tab.id _ hwf rfl)

theorem tabGet_seed_of_not_mem (fetchedTabs : List FetchedTab) (t : Tabs) (k : TabId)
    (h : k ∉ fetchedTabs.map (fun tab => tab.id)) :
    tabGet (fetchedTabs.foldl (fun t tab => tabAssign t tab.id { id := tab.id, time := 0 }) t) k
      = tabGet t k := by
  induction fetchedTabs generalizing t with
  | nil => rfl
  | cons tab rest ih =>
    simp only [List.map_cons, List.mem_cons, not_or] at h
    simp only [List.foldl_cons]
    rw [ih _ h.2, tabGet_tabAssign_ne _ _ _ _ h.1]

theorem tabGet_seed_of_mem (fetchedTabs : List FetchedTab) (t : Tabs) (k : TabId)
    (h : k ∈ fetchedTabs.map (fun tab => tab.id)) :
    tabGet (fetchedTabs.foldl (fun t tab => tabAssign t tab.id { id := tab.id, time := 0 }) t) k
      = some { id := k, time := 0 } := by
  induction fetchedTabs generalizing t with
  | nil => simp at h
  | cons tab rest ih =>
    simp only [List.foldl_cons]
    by_cases hr : k ∈ rest.map (fun tab => tab.id)
    · exact ih _ hr
    · simp only [List.map_cons, List.mem_cons] at h
      rcases h with h | h
      · subst h
        rw [tabGet_seed_of_not_mem _ _ _ hr, tabGet_tabAssign_self]
      · exact absurd h hr

theorem mem_tabKeys_iff_tabGet (t : Tabs) (k : TabId) :
    k ∈ tabKeys t ↔ ∃ e, tabGet t k = some e := by
  constructor
  · exact tabGet_of_mem_tabKeys t k
  · rintro ⟨e, he⟩
    exact List.mem_map_of_mem Prod.fst (mem_tabKeys_of_tabGet t k e he)

/-- One loop iteration adds no key and parks only keys of the table. -/
theorem sweepKey_keys (act : List TabId) (tickTime tabTimeout : Int) (key : TabId)
    (s s1 : State) (h : sweepKey act tickTime tabTimeout key s = some s1) :
    (∀ x ∈ tabKeys s1.tabs, x ∈ tabKeys s.tabs) ∧
      ∃ d, s1.discards = s.discards ++ d ∧ ∀ x ∈ d, x ∈ tabKeys s.tabs := by
  unfold sweepKey at h
  cases h1 : tabGet s.tabs key with
  | none => simp [h1] at h
  | some tab =>
    cases h2 : tabGet s.tabs tab.id with
    | none => simp [h1, h2] at h
    | some e =>
      simp only [h1, h2] at h
      split_ifs at h with hact hexp
      · cases h
        refine ⟨?_, [], by simp, by simp⟩
        intro x hx
        simpa [tabKeys_tabSetTime] using hx
      · cases h
        refine ⟨?_, [tab.id], rfl, ?_⟩
        · intro x hx
          have := tabKeys_tabDelete_subset _ _ _ hx
          simpa [tabKeys_tabSetTime] using this
        · intro x hx
          simp only [List.mem_singleton] at hx
          subst hx
          exact (mem_tabKeys_iff_tabGet _ _).mpr ⟨e, h2⟩
      · cases h
        refine ⟨?_, [], by simp, by simp⟩
        intro x hx
        simpa [tabKeys_tabSetTime] using hx

/-- The loop, finished or aborted, adds no key and parks only keys of the table. -/
theorem sweepKeys_keys (act : List TabId) (tickTime tabTimeout : Int) (ks : List TabId)
    (s : State) :
    ∀ s1, (sweepKeys act tickTime tabTimeout ks s = .ok s1 ∨
        sweepKeys act tickTime tabTimeout ks s = .error s1) →
      (∀ x ∈ tabKeys s1.tabs, x ∈ tabKeys s.tabs) ∧
        ∃ d, s1.discards = s.discards ++ d ∧ ∀ x ∈ d, x ∈ tabKeys s.tabs := by
  induction ks generalizing s with
  | nil =>
    intro s1 h
    simp only [sweepKeys, Except.ok.injEq, reduceCtorEq, or_false] at h
    subst h
    exact ⟨fun x hx => hx, [], by simp, by simp⟩
  | cons key rest ih =>
    intro s1 h
    unfold sweepKeys at h
    cases hk : sweepKey act tickTime tabTimeout key s with
    | none =>
      simp only [hk, reduceCtorEq, Except.error.injEq, false_or] at h
      subst h
      exact ⟨fun x hx => hx, [], by simp, by simp⟩
    | some s2 =>
      simp only [hk] at h
      obtain ⟨hkeys2, d2, hd2, hd2k⟩ := sweepKey_keys _ _ _ _ _ _ hk
      obtain ⟨hkeys1, d1, hd1, hd1k⟩ := ih s2 s1 h
      refine ⟨fun x hx => hkeys2 x (hkeys1 x hx), d2 ++ d1, ?_, ?_⟩
      · rw [hd1, hd2, List.append_assoc]
      · intro x hx
        rcases List.mem_append.mp hx with hx | hx
        · exact hd2k x hx
        · exact hkeys2 x (hd1k x hx)

/-- A sweep adds no key and parks only keys of the table, whatever the table. -/
theorem sweep_keys (skipPinned : Bool) (tickTime tabTimeout : Int)
    (fetchedTabs : List FetchedTab) (s : State) :
    (∀ x ∈ tabKeys (sweep skipPinned tickTime tabTimeout fetchedTabs s).tabs,
        x ∈ tabKeys s.tabs) ∧
      ∃ d, (sweep skipPinned tickTime tabTimeout fetchedTabs s).discards = s.discards ++ d ∧
        ∀ x ∈ d, x ∈ tabKeys s.tabs := by
  unfold sweep
  cases h : sweepKeys (activeTabs skipPinned fetchedTabs) tickTime tabTimeout (tabKeys s.tabs) s with
  | ok s1 => exact sweepKeys_keys _ _ _ _ _ s1 (Or.inl h)
  | error s1 => exact sweepKeys_keys _ _ _ _ _ s1 (Or.inr h)

theorem mem_tabKeys_seed (fetchedTabs : List FetchedTab) (t : Tabs) (k : TabId) :
    k ∈ tabKeys (fetchedTabs.foldl
        (fun t tab => tabAssign t tab.id { id := tab.id, time := 0 }) t)
      ↔ k ∈ fetchedTabs.map (fun tab => tab.id) ∨ k ∈ tabKeys t := by
  induction fetchedTabs generalizing t with
  | nil => simp
  | cons tab rest ih =>
    simp only [List.foldl_cons, List.map_cons, List.mem_cons]
    rw [ih, mem_tabKeys_tabAssign]
    tauto

/-- An operation that is no created, focus-changed or enable event for `k`
leaves `k` untracked and issues no discard request for it. -/
theorem TabOp.run_untracked (k : TabId) (op : TabOp) (s : State)
    (hop : op.noReviveOf k = true) (hk : k ∉ tabKeys s.tabs) :
    k ∉ tabKeys (op.run s).tabs ∧ ∃ d, (op.run s).discards = s.discards ++ d ∧ k ∉ d := by
  cases op with
  | created tab =>
    simp only [TabOp.noReviveOf, decide_eq_true_eq] at hop
    refine ⟨?_, [], by simp [TabOp.run, onCreated], by simp⟩
    simp only [TabOp.run, onCreated, mem_tabKeys_tabAssign, not_or]
    exact ⟨fun h => hop h.symm, hk⟩
  | removed tabId =>
    refine ⟨?_, [], by simp [TabOp.run, onRemoved], by simp⟩
    intro h
    exact hk (tabKeys_tabDelete_subset _ _ _ h)
  | selected tabId =>
    simp only [TabOp.noReviveOf, decide_eq_true_eq] at hop
    refine ⟨?_, [], by simp [TabOp.run, onSelectionChanged], by simp⟩
    simp only [TabOp.run, onSelectionChanged, mem_tabKeys_tabAssign, not_or]
    exact ⟨fun h => hop h.symm, hk⟩
  | sweep p t o f =>
    obtain ⟨hkeys, d, hd, hdk⟩ := sweep_keys p t o f s
    exact ⟨fun h => hk (hkeys k h), d, hd, fun h => hk (hdk k h)⟩
  | enableQuery f =>
    simp only [TabOp.noReviveOf, decide_eq_true_eq] at hop
    refine ⟨?_, [], by simp [TabOp.run, enableQueryCallback], by simp⟩
    simp only [TabOp.run, enableQueryCallback, mem_tabKeys_seed, not_or]
    exact ⟨hop, hk⟩
  | setState b =>
    cases b with
    | false =>
      refine ⟨?_, [], ?_, by simp⟩
      · simp [TabOp.run, setExtensionStateAfterSet, tabKeys]
      · simp only [TabOp.run, setExtensionStateAfterSet, List.append_nil]
        cases s.ticker <;> rfl
    | true =>
      exact ⟨by simpa [TabOp.run, setExtensionStateAfterSet] using hk, [],
        by simp [TabOp.run, setExtensionStateAfterSet], by simp⟩

theorem runOps_untracked (k : TabId) (ops : List TabOp) (s : State)
    (hops : ∀ op ∈ ops, op.noReviveOf k = true) (hk : k ∉ tabKeys s.tabs) :
    k ∉ tabKeys (runOps s ops).tabs ∧ ∃ d, (runOps s ops).discards = s.discards ++ d ∧ k ∉ d := by
  induction ops generalizing s with
  | nil => exact ⟨hk, [], by simp [runOps], by simp⟩
  | cons op rest ih =>
    obtain ⟨h1, d1, hd1, hd1k⟩ := TabOp.run_untracked k op s (hops op (List.mem_cons_self _ _)) hk
    obtain ⟨h2, d2, hd2, hd2k⟩ := ih (op.run s) (fun o ho => hops o (List.mem_cons_of_mem _ ho)) h1
    refine ⟨h2, d1 ++ d2, ?_, ?_⟩
    · show (runOps (op.run s) rest).discards = _
      rw [hd2, hd1, List.append_assoc]
    · simp [hd1k, hd2k]

/-- A calm operation that is no sweep keeps the entry of `k` and issues no
discard request. -/
theorem TabOp.run_calm_other (p : Bool) (tick tmo : Int) (k : TabId) (op : TabOp) (s : State)
    (hop : op.calmFor p tick tmo k = true) (hns : op.isSweep = false) :
    tabGet (op.run s).tabs k = tabGet s.tabs k ∧ (op.run s).discards = s.discards ∧
      (TabsWF s.tabs → TabsWF (op.run s).tabs) := by
  cases op with
  | created tab =>
    simp only [TabOp.calmFor, decide_eq_true_eq] at hop
    exact ⟨tabGet_tabAssign_ne _ _ _ _ (fun h => hop h.symm), rfl,
      fun hwf => TabsWF_tabAssign _ _ _ hwf rfl⟩
  | removed tabId =>
    simp only [TabOp.calmFor, decide_eq_true_eq] at hop
    exact ⟨tabGet_tabDelete_ne _ _ _ (fun h => hop h.symm), rfl,
      fun hwf => TabsWF_tabDelete _ _ hwf⟩
  | selected tabId =>
    simp only [TabOp.calmFor, decide_eq_true_eq] at hop
    exact ⟨tabGet_tabAssign_ne _ _ _ _ (fun h => hop h.symm), rfl,
      fun hwf => TabsWF_tabAssign _ _ _ hwf rfl⟩
  | sweep p' t' o' f => simp [TabOp.isSweep] at hns
  | enableQuery f =>
    simp only [TabOp.calmFor, decide_eq_true_eq] at hop
    exact ⟨tabGet_seed_of_not_mem _ _ _ hop, rfl, fun hwf => TabsWF_seed _ _ hwf⟩
  | setState b =>
    simp only [TabOp.calmFor] at hop
    subst hop
    exact ⟨rfl, rfl, fun hwf => hwf⟩

/-- Calm operations without a sweep among them keep the entry of `k` and issue
no discard request. -/
theorem runOps_calm_no_sweep (p : Bool) (tick tmo : Int) (k : TabId) (ops : List TabOp)
    (s : State) (hops : ∀ op ∈ ops, op.calmFor p tick tmo k = true)
    (hn : ops.countP TabOp.isSweep = 0) :
    tabGet (runOps s ops).tabs k = tabGet s.tabs k ∧ (runOps s ops).discards = s.discards ∧
      (TabsWF s.tabs → TabsWF (runOps s ops).tabs) := by
  induction ops generalizing s with
  | nil => exact ⟨rfl, rfl, fun h => h⟩
  | cons op rest ih =>
    have hns : op.isSweep = false := by
      by_contra h
      simp only [Bool.not_eq_false] at h
      simp [List.countP_cons, h] at hn
    have hrest : rest.countP TabOp.isSweep = 0 := by
      simpa [List.countP_cons, hns] using hn
    obtain ⟨h1, h2, h3⟩ := TabOp.run_calm_other p tick tmo k op s
      (hops op (List.mem_cons_self _ _)) hns
    obtain ⟨g1, g2, g3⟩ := ih (op.run s) (fun o ho => hops o (List.mem_cons_of_mem _ ho)) hrest
    refine ⟨?_, ?_, fun hwf => g3 (h3 hwf)⟩
    · show tabGet (runOps (op.run s) rest).tabs k = _
      rw [g1, h1]
    · show (runOps (op.run s) rest).discards = _
      rw [g2, h2]

/-- While the accumulated idle time stays below the timeout, calm operations
keep `k` in the table with idle time grown by one tick per sweep and issue no
discard request for it. -/
theorem runOps_calm_below (p : Bool) (tick tmo : Int) (k : TabId) (htick : 0 < tick)
    (ops : List TabOp) :
    ∀ (s : State) (a : Int), TabsWF s.tabs → tabGet s.tabs k = some ⟨k, a⟩ →
      (∀ op ∈ ops, op.calmFor p tick tmo k = true) →
      a + (ops.countP TabOp.isSweep : Int) * tick < tmo →
      TabsWF (runOps s ops).tabs ∧
      tabGet (runOps s ops).tabs k = some ⟨k, a + (ops.countP TabOp.isSweep : Int) * tick⟩ ∧
      ∃ d, (runOps s ops).discards = s.discards ++ d ∧ k ∉ d := by
  induction ops with
  | nil =>
    intro s a hwf hk _ _
    exact ⟨hwf, by simpa [runOps] using hk, [], by simp [runOps], by simp⟩
  | cons op rest ih =>
    intro s a hwf hk hops hlt
    have hop := hops op (List.mem_cons_self _ _)
    have hrest : ∀ o ∈ rest, o.calmFor p tick tmo k = true :=
      fun o ho => hops o (List.mem_cons_of_mem _ ho)
    have hm : (0 : Int) ≤ (rest.countP TabOp.isSweep : Int) := Int.natCast_nonneg _
    by_cases hsw : op.isSweep = true
    · have hcnt : (op :: rest).countP TabOp.isSweep = rest.countP TabOp.isSweep + 1 := by
        simp [List.countP_cons, hsw]
      rw [hcnt] at hlt ⊢
      push_cast at hlt ⊢
      cases op with
      | sweep p' t' o' f =>
        simp only [TabOp.calmFor, decide_eq_true_eq] at hop
        obtain ⟨hp, ht, ho, hex⟩ := hop
        subst hp ht ho
        have hnexp : ¬ (⟨k, a⟩ : Entry).time + t' ≥ o' := by
          simp only [ge_iff_le, not_le]
          nlinarith [mul_nonneg hm (le_of_lt htick)]
        obtain ⟨hg, d1, hd1, hd1k⟩ :=
          (sweep_of_not_exempt p' t' o' f s k ⟨k, a⟩ hwf hk hex).2 hnexp
        obtain ⟨w, g, d2, hd2, hd2k⟩ := ih (sweep p' t' o' f s) (a + t')
          (TabsWF_sweep _ _ _ _ _ hwf) hg hrest (by linarith)
        refine ⟨w, ?_, d1 ++ d2, ?_, ?_⟩
        · show tabGet (runOps (sweep p' t' o' f s) rest).tabs k = _
          rw [g]
          congr 2
          ring
        · show (runOps (sweep p' t' o' f s) rest).discards = _
          rw [hd2, hd1, List.append_assoc]
        · simp only [List.mem_append, not_or]
          exact ⟨hd1k, hd2k⟩
      | _ => simp [TabOp.isSweep] at hsw
    · simp only [Bool.not_eq_true] at hsw
      have hcnt : (op :: rest).countP TabOp.isSweep = rest.countP TabOp.isSweep := by
        simp [List.countP_cons, hsw]
      rw [hcnt] at hlt ⊢
      obtain ⟨h1, h2, h3⟩ := TabOp.run_calm_other p tick tmo k op s hop hsw
      obtain ⟨w, g, d2, hd2, hd2k⟩ := ih (op.run s) a (h3 hwf) (by rw [h1]; exact hk) hrest hlt
      refine ⟨w, g, d2, ?_, hd2k⟩
      show (runOps (op.run s) rest).discards = _
      rw [hd2, h2]

/-- When the sweeps among calm operations carry the idle time of `k` to the
timeout exactly at the last of them, `k` is parked exactly once and ends
without entry. -/
theorem runOps_calm_reach (p : Bool) (tick tmo : Int) (k : TabId) (htick : 0 < tick)
    (ops : List TabOp) :
    ∀ (s : State) (a : Int), TabsWF s.tabs → tabGet s.tabs k = some ⟨k, a⟩ →
      (∀ op ∈ ops, op.calmFor p tick tmo k = true) →
      1 ≤ ops.countP TabOp.isSweep →
      a + (ops.countP TabOp.isSweep : Int) * tick ≥ tmo →
      a + ((ops.countP TabOp.isSweep : Int) - 1) * tick < tmo →
      tabGet (runOps s ops).tabs k = none ∧
      ∃ d, (runOps s ops).discards = s.discards ++ d ∧ d.count k = 1 := by
  induction ops with
  | nil =>
    intro s a _ _ _ h1
    simp at h1
  | cons op rest ih =>
    intro s a hwf hk hops h1 hge hlt
    have hop := hops op (List.mem_cons_self _ _)
    have hrest : ∀ o ∈ rest, o.calmFor p tick tmo k = true :=
      fun o ho => hops o (List.mem_cons_of_mem _ ho)
    by_cases hsw : op.isSweep = true
    · have hcnt : (op :: rest).countP TabOp.isSweep = rest.countP TabOp.isSweep + 1 := by
        simp [List.countP_cons, hsw]
      rw [hcnt] at hge hlt
      push_cast at hge hlt
      cases op with
      | sweep p' t' o' f =>
        simp only [TabOp.calmFor, decide_eq_true_eq] at hop
        obtain ⟨hp, ht, ho, hex⟩ := hop
        subst hp ht ho
        by_cases hm : rest.countP TabOp.isSweep = 0
        · rw [hm] at hge
          have hexp : (⟨k, a⟩ : Entry).time + t' ≥ o' := by
            simp only [ge_iff_le]
            simp only [Nat.cast_zero, zero_add, one_mul, ge_iff_le] at hge
            exact hge
          obtain ⟨hg, d1, hd1, hd1k⟩ :=
            (sweep_of_not_exempt p' t' o' f s k ⟨k, a⟩ hwf hk hex).1 hexp
          obtain ⟨g1, g2, _⟩ := runOps_calm_no_sweep p' t' o' k rest (sweep p' t' o' f s) hrest hm
          refine ⟨?_, d1, ?_, hd1k⟩
          · show tabGet (runOps (sweep p' t' o' f s) rest).tabs k = _
            rw [g1, hg]
          · show (runOps (sweep p' t' o' f s) rest).discards = _
            rw [g2, hd1]
        · have hm1 : 1 ≤ rest.countP TabOp.isSweep := Nat.one_le_iff_ne_zero.mpr hm
          have hm1' : (1 : Int) ≤ (rest.countP TabOp.isSweep : Int) := by exact_mod_cast hm1
          have hnexp : ¬ (⟨k, a⟩ : Entry).time + t' ≥ o' := by
            simp only [ge_iff_le, not_le]
            nlinarith [mul_nonneg (sub_nonneg.mpr hm1') (le_of_lt htick)]
          obtain ⟨hg, d1, hd1, hd1k⟩ :=
            (sweep_of_not_exempt p' t' o' f s k ⟨k, a⟩ hwf hk hex).2 hnexp
          obtain ⟨g, d2, hd2, hd2k⟩ := ih (sweep p' t' o' f s) (a + t')
            (TabsWF_sweep _ _ _ _ _ hwf) hg hrest hm1 (by linarith) (by linarith)
          refine ⟨g, d1 ++ d2, ?_, ?_⟩
          · show (runOps (sweep p' t' o' f s) rest).discards = _
            rw [hd2, hd1, List.append_assoc]
          · rw [List.count_append, hd2k, List.count_eq_zero_of_not_mem hd1k]
      | _ => simp [TabOp.isSweep] at hsw
    · simp only [Bool.not_eq_true] at hsw
      have hcnt : (op :: rest).countP TabOp.isSweep = rest.countP TabOp.isSweep := by
        simp [List.countP_cons, hsw]
      rw [hcnt] at h1 hge hlt
      obtain ⟨g1, g2, g3⟩ := TabOp.run_calm_other p tick tmo k op s hop hsw
      obtain ⟨g, d2, hd2, hd2k⟩ := ih (op.run s) a (g3 hwf) (by rw [g1]; exact hk) hrest h1 hge hlt
      refine ⟨g, d2, ?_, hd2k⟩
      show (runOps (op.run s) rest).discards = _
      rw [hd2, g2]

/-! ## Lemmas on the step relation -/

theorem step_resolved_setStateSet (s : State) (b : Bool) (h : Cont.setStateSet b ∈ s.conts) :
    step s (.resolved (.setStateSet b))
      = some (setExtensionStateAfterSet b { s with conts := s.conts.erase (.setStateSet b) }) := by
  simp only [step, h, if_true]

theorem step_resolved_enableGet (s : State) (h : Cont.enableGet ∈ s.conts) :
    step s (.resolved .enableGet)
      = some (setExtensionStateAfterGet { s with conts := s.conts.erase .enableGet }) := by
  simp only [step, h, if_true]

theorem step_queryReturned_enableQuery (s : State) (f : List FetchedTab)
    (h : Cont.enableQuery ∈ s.conts) :
    step s (.queryReturned .enableQuery f)
      = some (enableQueryCallback f { s with conts := s.conts.erase .enableQuery }) := by
  simp only [step, h, if_true]

theorem step_resolved_startReady (s : State) (h : Cont.startReady ∈ s.conts) :
    step s (.resolved .startReady)
      = some (startAfterReady { s with conts := s.conts.erase .startReady }) := by
  simp only [step, h, if_true]

theorem step_resolved_startGet (s : State) (h : Cont.startGet ∈ s.conts) :
    step s (.resolved .startGet)
      = some (startAfterGet { s with conts := s.conts.erase .startGet }) := by
  simp only [step, h, if_true]

/-- The disable transition, run to its end from any state. -/
theorem disable_run (s : State) :
    ∃ s1, step (setExtensionState false s) (.resolved (.setStateSet false)) = some s1 ∧
      s1.tabs = [] ∧ s1.ticker = none ∧
      s1.timers = s.timers.filter (fun x => decide (some x ≠ s.ticker)) ∧
      s1.store = { s.store with active := false } ∧
      s1.icon = some "img/icon19_off.png" ∧ s1.title = some "browserActionInactive" ∧
      s1.queries = s.queries ∧ s1.discards = s.discards := by
  have hmem : Cont.setStateSet false ∈ (setExtensionState false s).conts := by
    simp [setExtensionState]
  refine ⟨_, step_resolved_setStateSet _ _ hmem, ?_⟩
  cases ht : s.ticker with
  | none =>
    simp [setExtensionStateAfterSet, setExtensionState, ht]
  | some h =>
    simp [setExtensionStateAfterSet, setExtensionState, ht, clearTimeout]

/-- The enable transition, run to its end from any state, with the query
answered before or after the `store.get` of the tick length. -/
theorem enable_run (s : State) (f : List FetchedTab) (queryFirst : Bool) :
    ∃ s2, run (setExtensionState true s) (enableEvents f queryFirst) = some s2 ∧
      s2.tabs = f.foldl (fun t tab => tabAssign t tab.id { id := tab.id, time := 0 }) s.tabs ∧
      s2.store = { s.store with active := true } ∧
      s2.ticker = some s.nextTimer ∧
      s2.timers = s.timers ++ [s.nextTimer] ∧
      s2.discards = s.discards := by
  have hmem : Cont.setStateSet true ∈ (setExtensionState true s).conts := by
    simp [setExtensionState]
  cases queryFirst with
  | true =>
    simp only [enableEvents, if_true, run, step_resolved_setStateSet _ _ hmem, Option.some_bind]
    rw [step_queryReturned_enableQuery _ _ (by simp [setExtensionStateAfterSet])]
    simp only [Option.some_bind]
    rw [step_resolved_enableGet _ (by
      simp [setExtensionStateAfterSet, enableQueryCallback, List.mem_erase_of_ne])]
    simp only [Option.some_bind]
    exact ⟨_, rfl, rfl, rfl, rfl, rfl, rfl⟩
  | false =>
    simp only [enableEvents, Bool.false_eq_true, if_false, run,
      step_resolved_setStateSet _ _ hmem, Option.some_bind]
    rw [step_resolved_enableGet _ (by simp [setExtensionStateAfterSet])]
    simp only [Option.some_bind]
    rw [step_queryReturned_enableQuery _ _ (by
      simp [setExtensionStateAfterSet, setExtensionStateAfterGet, setTimeout,
        List.mem_erase_of_ne])]
    simp only [Option.some_bind]
    exact ⟨_, rfl, rfl, rfl, rfl, rfl, rfl⟩

theorem run_append (s : State) (es1 es2 : List Event) :
    run s (es1 ++ es2) = (run s es1).bind (fun s1 => run s1 es2) := by
  induction es1 generalizing s with
  | nil => rfl
  | cons e es ih =>
    simp only [List.cons_append, run]
    cases step s e with
    | none => rfl
    | some s1 => exact ih s1

/-- The module start, run until `setExtensionState` has been called. -/
theorem start_run (persisted : Settings) :
    ∃ s0, run (start (initial persisted)) [.resolved .startReady, .resolved .startGet]
        = some (setExtensionState persisted.active s0) ∧
      s0.tabs = [] ∧ s0.store = persisted := by
  refine ⟨{ initial persisted with console := [Msg.started] }, ?_, rfl, rfl⟩
  rfl

/-- Every step keeps the structural invariant of the `tabs` object. -/
theorem step_preserves_TabsWF (s s1 : State) (e : Event) (h : step s e = some s1)
    (hwf : TabsWF s.tabs) : TabsWF s1.tabs := by
  cases e with
  | timerFired t =>
    simp only [step] at h
    split_ifs at h
    cases h
    exact hwf
  | resolved c =>
    simp only [step] at h
    split_ifs at h
    cases c with
    | tickGet => cases h; exact hwf
    | setStateSet b =>
      cases h
      cases b with
      | false => exact ⟨List.Pairwise.nil, by simp [setExtensionStateAfterSet]⟩
      | true => exact hwf
    | enableGet => cases h; exact hwf
    | clickGet => cases h; exact hwf
    | startReady => cases h; exact hwf
    | startGet => cases h; exact hwf
    | tickQuery p t o => cases h
    | enableQuery => cases h
    | discardCb i => cases h
  | queryReturned c f =>
    simp only [step] at h
    split_ifs at h
    cases c with
    | tickQuery p t o =>
      cases h
      exact TabsWF_sweep p t o f _ hwf
    | enableQuery =>
      cases h
      exact TabsWF_seed f _ hwf
    | tickGet => cases h
    | setStateSet b => cases h
    | enableGet => cases h
    | clickGet => cases h
    | startReady => cases h
    | startGet => cases h
    | discardCb i => cases h
  | discardReturned i o =>
    simp only [step] at h
    split_ifs at h
    cases h
    cases o <;> exact hwf
  | tabCreated tab =>
    cases h
    exact TabsWF_tabAssign _ _ _ hwf rfl
  | tabRemoved i =>
    cases h
    exact TabsWF_tabDelete _ _ hwf
  | tabSelected i =>
    cases h
    exact TabsWF_tabAssign _ _ _ hwf rfl
  | iconClicked =>
    cases h
    exact hwf
  | settingsEdited a b c =>
    cases h
    exact hwf

/-- Every run keeps the structural invariant of the `tabs` object. -/
theorem run_preserves_TabsWF (es : List Event) (s s1 : State) (h : run s es = some s1)
    (hwf : TabsWF s.tabs) : TabsWF s1.tabs := by
  induction es generalizing s with
  | nil =>
    cases h
    exact hwf
  | cons e es ih =>
    simp only [run] at h
    cases hs : step s e with
    | none => simp [hs] at h
    | some s2 =>
      rw [hs] at h
      exact ih s2 h (step_preserves_TabsWF s s2 e hs hwf)

/-- The `tabs` object satisfies its structural invariant in every state the
extension reaches after its start. -/
theorem reachable_TabsWF (persisted : Settings) (es : List Event) (s : State)
    (h : run (start (initial persisted)) es = some s) : TabsWF s.tabs :=
  run_preserves_TabsWF es _ s h ⟨List.Pairwise.nil, by simp [start, initial]⟩

/-! ## Lemmas on runs of operations and events -/

/-- Every operation keeps the structural invariant of the `tabs` object. -/
theorem TabOp.run_keeps_TabsWF (op : TabOp) (s : State) (hwf : TabsWF s.tabs) :
    TabsWF (op.run s).tabs := by
  cases op with
  | created tab => exact TabsWF_tabAssign _ _ _ hwf rfl
  | removed tabId => exact TabsWF_tabDelete _ _ hwf
  | selected tabId => exact TabsWF_tabAssign _ _ _ hwf rfl
  | sweep p t o f => exact TabsWF_sweep p t o f s hwf
  | enableQuery f => exact TabsWF_seed f _ hwf
  | setState b =>
    cases b with
    | false => exact ⟨List.Pairwise.nil, by simp [TabOp.run, setExtensionStateAfterSet]⟩
    | true => exact hwf

/-- An operation that is no sweep issues no discard request. -/
theorem TabOp.run_discards_of_not_sweep (op : TabOp) (s : State) (hns : op.isSweep = false) :
    (op.run s).discards = s.discards := by
  cases op with
  | created tab => rfl
  | removed tabId => rfl
  | selected tabId => rfl
  | sweep p t o f => simp [TabOp.isSweep] at hns
  | enableQuery f => rfl
  | setState b =>
    cases b with
    | false =>
      simp only [TabOp.run, setExtensionStateAfterSet]
      cases s.ticker <;> rfl
    | true => rfl

/-- A key parked by a sweep of a well-formed table has no entry afterwards. -/
theorem not_mem_tabKeys_of_mem_parkedKeys (act : List TabId) (tickTime tabTimeout : Int)
    (t : Tabs) (k : TabId) (hnd : (tabKeys t).Nodup)
    (h : k ∈ parkedKeys act tickTime tabTimeout t) :
    k ∉ tabKeys (t.filterMap (sweepEntry act tickTime tabTimeout)) := by
  have hk : k ∈ tabKeys t := by
    unfold parkedKeys at h
    exact (List.Sublist.map _ (List.filter_sublist _)).subset h
  obtain ⟨e, he⟩ := tabGet_of_mem_tabKeys t k hk
  have hcond := (mem_parkedKeys act tickTime tabTimeout t k e hnd he).mp h
  apply not_mem_tabKeys_of_tabGet_none
  rw [tabGet_filterMap_sweepEntry _ _ _ _ _ _ hnd he]
  simp [sweepEntry, hcond.1, hcond.2]

/-- From a well-formed table, a run without created, focus-changed or enable
event for `k` issues at most one discard request for `k`. -/
theorem runOps_discards_at_most_once (k : TabId) (ops : List TabOp) :
    ∀ s : State, TabsWF s.tabs → (∀ op ∈ ops, op.noReviveOf k = true) →
      ∃ d, (runOps s ops).discards = s.discards ++ d ∧ d.count k ≤ 1 := by
  induction ops with
  | nil =>
    intro s _ _
    exact ⟨[], by simp [runOps], by simp⟩
  | cons op rest ih =>
    intro s hwf hops
    have hrest : ∀ o ∈ rest, o.noReviveOf k = true :=
      fun o ho => hops o (List.mem_cons_of_mem _ ho)
    have hwf1 := TabOp.run_keeps_TabsWF op s hwf
    by_cases hsw : op.isSweep = true
    · cases op with
      | sweep p t o f =>
        have hcl := sweep_closed p t o f s hwf
        by_cases hpk : k ∈ parkedKeys (activeTabs p f) t o s.tabs
        · have habs : k ∉ tabKeys (sweep p t o f s).tabs := by
            rw [hcl]
            exact not_mem_tabKeys_of_mem_parkedKeys _ _ _ _ _ hwf.nodup hpk
          obtain ⟨_, d2, hd2, hd2k⟩ := runOps_untracked k rest (sweep p t o f s) hrest habs
          refine ⟨parkedKeys (activeTabs p f) t o s.tabs ++ d2, ?_, ?_⟩
          · show (runOps (sweep p t o f s) rest).discards = _
            rw [hd2, hcl, List.append_assoc]
          · rw [List.count_append, List.count_eq_zero_of_not_mem hd2k,
              List.count_eq_one_of_mem (parkedKeys_nodup _ _ _ _ hwf.nodup) hpk]
        · obtain ⟨d2, hd2, hd2k⟩ := ih (sweep p t o f s) hwf1 hrest
          refine ⟨parkedKeys (activeTabs p f) t o s.tabs ++ d2, ?_, ?_⟩
          · show (runOps (sweep p t o f s) rest).discards = _
            rw [hd2, hcl, List.append_assoc]
          · rw [List.count_append, List.count_eq_zero_of_not_mem hpk]
            simpa using hd2k
      | _ => simp [TabOp.isSweep] at hsw
    · simp only [Bool.not_eq_true] at hsw
      obtain ⟨d2, hd2, hd2k⟩ := ih (op.run s) hwf1 hrest
      refine ⟨d2, ?_, hd2k⟩
      show (runOps (op.run s) rest).discards = _
      rw [hd2, TabOp.run_discards_of_not_sweep op s hsw]

theorem mem_seed (fetchedTabs : List FetchedTab) (t : Tabs) (p : TabId × Entry)
    (h : p ∈ fetchedTabs.foldl
      (fun t tab => tabAssign t tab.id { id := tab.id, time := 0 }) t) :
    p ∈ t ∨ p.2.time = 0 := by
  induction fetchedTabs generalizing t with
  | nil => exact Or.inl h
  | cons tab rest ih =>
    simp only [List.foldl_cons] at h
    rcases ih _ h with h1 | h1
    · rcases mem_tabAssign _ _ _ _ h1 with h2 | h2
      · exact Or.inr (by rw [h2])
      · exact Or.inl h2
    · exact Or.inr h1

/-- A step whose sweep, if it is one, has a non-negative tick keeps all idle
times non-negative. -/
theorem step_preserves_time_nonneg (s s1 : State) (e : Event) (h : step s e = some s1)
    (hwf : TabsWF s.tabs) (he : e.sweepTickNonneg = true)
    (hpos : ∀ p ∈ s.tabs, 0 ≤ p.2.time) : ∀ p ∈ s1.tabs, 0 ≤ p.2.time := by
  cases e with
  | timerFired t =>
    simp only [step] at h
    split_ifs at h
    cases h
    exact hpos
  | resolved c =>
    simp only [step] at h
    split_ifs at h
    cases c with
    | tickGet => cases h; exact hpos
    | setStateSet b =>
      cases h
      cases b with
      | false => intro p hp; simp [setExtensionStateAfterSet] at hp
      | true => exact hpos
    | enableGet => cases h; exact hpos
    | clickGet => cases h; exact hpos
    | startReady => cases h; exact hpos
    | startGet => cases h; exact hpos
    | tickQuery p t o => cases h
    | enableQuery => cases h
    | discardCb i => cases h
  | queryReturned c f =>
    simp only [step] at h
    split_ifs at h
    cases c with
    | tickQuery p t o =>
      cases h
      simp only [Event.sweepTickNonneg, decide_eq_true_eq] at he
      rw [sweep_closed p t o f { s with conts := s.conts.erase (Cont.tickQuery p t o) } hwf]
      intro q hq
      obtain ⟨q0, hq0, hq0q⟩ := List.mem_filterMap.mp hq
      have h0 := hpos q0 hq0
      unfold sweepEntry at hq0q
      split_ifs at hq0q
      · cases hq0q
        exact le_refl _
      · cases hq0q
        exact add_nonneg h0 he
    | enableQuery =>
      cases h
      intro q hq
      rcases mem_seed f _ q hq with h1 | h1
      · exact hpos q h1
      · rw [h1]
    | tickGet => cases h
    | setStateSet b => cases h
    | enableGet => cases h
    | clickGet => cases h
    | startReady => cases h
    | startGet => cases h
    | discardCb i => cases h
  | discardReturned i o =>
    simp only [step] at h
    split_ifs at h
    cases h
    cases o <;> exact hpos
  | tabCreated tab =>
    cases h
    intro q hq
    rcases mem_tabAssign _ _ _ _ hq with h1 | h1
    · rw [h1]
    · exact hpos q h1
  | tabRemoved i =>
    cases h
    intro q hq
    exact hpos q (List.mem_of_mem_filter hq)
  | tabSelected i =>
    cases h
    intro q hq
    rcases mem_tabAssign _ _ _ _ hq with h1 | h1
    · rw [h1]
    · exact hpos q h1
  | iconClicked =>
    cases h
    exact hpos
  | settingsEdited a b c =>
    cases h
    exact hpos

theorem run_preserves_time_nonneg (es : List Event) (s s1 : State) (h : run s es = some s1)
    (hwf : TabsWF s.tabs) (hes : ∀ e ∈ es, e.sweepTickNonneg = true)
    (hpos : ∀ p ∈ s.tabs, 0 ≤ p.2.time) : ∀ p ∈ s1.tabs, 0 ≤ p.2.time := by
  induction es generalizing s with
  | nil =>
    cases h
    exact hpos
  | cons e es ih =>
    simp only [run] at h
    cases hs : step s e with
    | none => simp [hs] at h
    | some s2 =>
      rw [hs] at h
      exact ih s2 h (step_preserves_TabsWF s s2 e hs hwf)
        (fun e' he' => hes e' (List.mem_cons_of_mem _ he'))
        (step_preserves_time_nonneg s s2 e hs hwf (hes e (List.mem_cons_self _ _)) hpos)

/-- How one step can change the idle time of an entry that it keeps. -/
theorem step_time_change (s s1 : State) (ev : Event) (h : step s ev = some s1)
    (hwf : TabsWF s.tabs) (k : TabId) (e0 e1 : Entry)
    (h0 : tabGet s.tabs k = some e0) (h1 : tabGet s1.tabs k = some e1) :
    e1.time = e0.time ∨ e1.time = 0 ∨
      ∃ p t o f, ev = Event.queryReturned (Cont.tickQuery p t o) f ∧
        e1.time = e0.time + t := by
  have same : s1.tabs = s.tabs → e1.time = e0.time ∨ e1.time = 0 ∨
      ∃ p t o f, ev = Event.queryReturned (Cont.tickQuery p t o) f ∧
        e1.time = e0.time + t := by
    intro hs
    rw [hs, h0] at h1
    cases h1
    exact Or.inl rfl
  have assigned : ∀ j : TabId, s1.tabs = tabAssign s.tabs j { id := j, time := 0 } →
      e1.time = e0.time ∨ e1.time = 0 ∨
      ∃ p t o f, ev = Event.queryReturned (Cont.tickQuery p t o) f ∧
        e1.time = e0.time + t := by
    intro j hs
    rw [hs] at h1
    by_cases hkj : k = j
    · subst hkj
      rw [tabGet_tabAssign_self] at h1
      cases h1
      exact Or.inr (Or.inl rfl)
    · rw [tabGet_tabAssign_ne _ _ _ _ hkj, h0] at h1
      cases h1
      exact Or.inl rfl
  cases ev with
  | timerFired t =>
    simp only [step] at h
    split_ifs at h
    cases h
    exact same rfl
  | resolved c =>
    simp only [step] at h
    split_ifs at h
    cases c with
    | tickGet => cases h; exact same rfl
    | setStateSet b =>
      cases h
      cases b with
      | false => simp [setExtensionStateAfterSet, tabGet] at h1
      | true => exact same rfl
    | enableGet => cases h; exact same rfl
    | clickGet => cases h; exact same rfl
    | startReady => cases h; exact same rfl
    | startGet => cases h; exact same rfl
    | tickQuery p t o => cases h
    | enableQuery => cases h
    | discardCb i => cases h
  | queryReturned c f =>
    simp only [step] at h
    split_ifs at h
    cases c with
    | tickQuery p t o =>
      cases h
      rw [sweep_closed p t o f { s with conts := s.conts.erase (Cont.tickQuery p t o) } hwf]
        at h1
      have hg := tabGet_filterMap_sweepEntry (activeTabs p f) t o s.tabs k e0 hwf.nodup h0
      have h1' : tabGet (s.tabs.filterMap (sweepEntry (activeTabs p f) t o)) k = some e1 := h1
      rw [hg] at h1'
      unfold sweepEntry at h1'
      split_ifs at h1'
      · simp at h1'
        exact Or.inr (Or.inl (by rw [← h1']))
      · simp at h1'
      · simp at h1'
        exact Or.inr (Or.inr ⟨p, t, o, f, rfl, by rw [← h1']⟩)
    | enableQuery =>
      cases h
      by_cases hk : k ∈ f.map (fun tab => tab.id)
      · have h1' : tabGet (f.foldl
            (fun t tab => tabAssign t tab.id { id := tab.id, time := 0 }) s.tabs) k
            = some e1 := h1
        rw [tabGet_seed_of_mem _ _ _ hk] at h1'
        cases h1'
        exact Or.inr (Or.inl rfl)
      · have h1' : tabGet (f.foldl
            (fun t tab => tabAssign t tab.id { id := tab.id, time := 0 }) s.tabs) k
            = some e1 := h1
        rw [tabGet_seed_of_not_mem _ _ _ hk, h0] at h1'
        cases h1'
        exact Or.inl rfl
    | tickGet => cases h
    | setStateSet b => cases h
    | enableGet => cases h
    | clickGet => cases h
    | startReady => cases h
    | startGet => cases h
    | discardCb i => cases h
  | discardReturned i o =>
    simp only [step] at h
    split_ifs at h
    cases h
    cases o <;> exact same rfl
  | tabCreated tab =>
    cases h
    exact assigned tab.id rfl
  | tabRemoved i =>
    cases h
    by_cases hki : k = i
    · subst hki
      have : tabGet (tabDelete s.tabs k) k = some e1 := h1
      rw [tabGet_tabDelete_self] at this
      cases this
    · have : tabGet (tabDelete s.tabs i) k = some e1 := h1
      rw [tabGet_tabDelete_ne _ _ _ hki, h0] at this
      cases this
      exact Or.inl rfl
  | tabSelected i =>
    cases h
    exact assigned i rfl
  | iconClicked =>
    cases h
    exact same rfl
  | settingsEdited a b c =>
    cases h
    exact same rfl

/-- A step that does not give `k` an entry adds no entry for `k`. -/
theorem step_keys_of_not_revives (s s1 : State) (e : Event) (k : TabId)
    (h : step s e = some s1) (hr : e.revives k = false) (hk : k ∈ tabKeys s1.tabs) :
    k ∈ tabKeys s.tabs := by
  cases e with
  | timerFired t =>
    simp only [step] at h
    split_ifs at h
    cases h
    exact hk
  | resolved c =>
    simp only [step] at h
    split_ifs at h
    cases c with
    | tickGet => cases h; exact hk
    | setStateSet b =>
      cases h
      cases b with
      | false => simp [setExtensionStateAfterSet, tabKeys] at hk
      | true => exact hk
    | enableGet => cases h; exact hk
    | clickGet => cases h; exact hk
    | startReady => cases h; exact hk
    | startGet => cases h; exact hk
    | tickQuery p t o => cases h
    | enableQuery => cases h
    | discardCb i => cases h
  | queryReturned c f =>
    simp only [step] at h
    split_ifs at h
    cases c with
    | tickQuery p t o =>
      cases h
      exact (sweep_keys p t o f
        { s with conts := s.conts.erase (Cont.tickQuery p t o) }).1 k hk
    | enableQuery =>
      cases h
      simp only [Event.revives, decide_eq_false_iff_not] at hr
      rcases (mem_tabKeys_seed f _ k).mp hk with h1 | h1
      · exact absurd h1 hr
      · exact h1
    | tickGet => cases h
    | setStateSet b => cases h
    | enableGet => cases h
    | clickGet => cases h
    | startReady => cases h
    | startGet => cases h
    | discardCb i => cases h
  | discardReturned i o =>
    simp only [step] at h
    split_ifs at h
    cases h
    cases o <;> exact hk
  | tabCreated tab =>
    cases h
    simp only [Event.revives, decide_eq_false_iff_not] at hr
    rcases (mem_tabKeys_tabAssign _ _ k _).mp hk with h1 | h1
    · exact absurd h1.symm hr
    · exact h1
  | tabRemoved i =>
    cases h
    exact tabKeys_tabDelete_subset _ _ _ hk
  | tabSelected i =>
    cases h
    simp only [Event.revives, decide_eq_false_iff_not] at hr
    rcases (mem_tabKeys_tabAssign _ _ k _).mp hk with h1 | h1
    · exact absurd h1.symm hr
    · exact h1
  | iconClicked =>
    cases h
    exact hk
  | settingsEdited a b c =>
    cases h
    exact hk

/-- A removal of `k` or a completed disable leaves `k` without entry. -/
theorem step_keys_of_clears (s s1 : State) (e : Event) (k : TabId)
    (h : step s e = some s1) (hc : e.clears k = true) : k ∉ tabKeys s1.tabs := by
  cases e with
  | resolved c =>
    cases c with
    | setStateSet b =>
      cases b with
      | false =>
        simp only [step] at h
        split_ifs at h
        cases h
        simp [setExtensionStateAfterSet, tabKeys]
      | true => simp [Event.clears] at hc
    | _ => simp [Event.clears] at hc
  | tabRemoved i =>
    cases h
    simp only [Event.clears, decide_eq_true_eq] at hc
    subst hc
    exact not_mem_tabKeys_of_tabGet_none _ _ (tabGet_tabDelete_self _ _)
  | _ => simp [Event.clears] at hc

/-- An entry exists only for an item that is known after the events run. -/
theorem run_known (k : TabId) (es : List Event) :
    ∀ (s s1 : State) (b : Bool), run s es = some s1 → (k ∈ tabKeys s.tabs → b = true) →
      k ∈ tabKeys s1.tabs → knownAfter k b es = true := by
  induction es with
  | nil =>
    intro s s1 b h hb hk
    cases h
    exact hb hk
  | cons e es ih =>
    intro s s1 b h hb hk
    simp only [run] at h
    cases hs : step s e with
    | none => simp [hs] at h
    | some s2 =>
      rw [hs] at h
      simp only [Option.some_bind] at h
      simp only [knownAfter]
      refine ih s2 s1 _ h ?_ hk
      intro hk2
      by_cases hr : e.revives k = true
      · simp [hr]
      · simp only [Bool.not_eq_true] at hr
        by_cases hc : e.clears k = true
        · exact absurd hk2 (step_keys_of_clears s s2 e k hs hc)
        · simp only [Bool.not_eq_true] at hc
          simp only [hr, hc, Bool.false_eq_true, if_false]
          exact hb (step_keys_of_not_revives s s2 e k hs hr hk2)

theorem step_resolved_clickGet (s : State) (h : Cont.clickGet ∈ s.conts) :
    step s (.resolved .clickGet)
      = some (onClickedAfterGet { s with conts := s.conts.erase .clickGet }) := by
  simp only [step, h, if_true]

/-- The click listener, run until it has called `setExtensionState`. -/
theorem click_run (s : State) :
    ∃ s0, run s [.iconClicked, .resolved .clickGet]
        = some (setExtensionState (!s.store.active) s0) ∧ s0.store = s.store := by
  have hmem : Cont.clickGet ∈ (onClicked s).conts := by simp [onClicked]
  refine ⟨{ onClicked s with conts := (onClicked s).conts.erase .clickGet }, ?_, rfl⟩
  have hfirst : step s .iconClicked = some (onClicked s) := rfl
  simp only [run, hfirst, Option.some_bind, step_resolved_clickGet _ hmem]
  rfl

/-- One toggle, run to its end, stores the negated flag. -/
theorem toggle_run (s : State) (f : List FetchedTab) (q : Bool) :
    ∃ s1, run s (toggleEvents s.store.active f q) = some s1 ∧
      s1.store = { s.store with active := !s.store.active } := by
  obtain ⟨s0, hclick, hstore⟩ := click_run s
  unfold toggleEvents
  rw [run_append, hclick]
  simp only [Option.some_bind]
  cases hb : s.store.active with
  | true =>
    obtain ⟨s1, hstep, _, _, _, hst, _⟩ := disable_run s0
    refine ⟨s1, ?_, ?_⟩
    · simp only [if_true, run, Bool.not_true]
      rw [hstep]
      rfl
    · rw [hst, hstore]
      rfl
  | false =>
    obtain ⟨s1, hrun, _, hst, _⟩ := enable_run s0 f q
    refine ⟨s1, ?_, ?_⟩
    · simp only [Bool.false_eq_true, if_false, Bool.not_false]
      exact hrun
    · rw [hst, hstore]
      rfl

/-! ## Lemmas on JavaScript numbers -/

theorem roundSig_of_lt (n : Nat) (h : n < 2 ^ 53) : roundSig n = (n, 0) := by
  unfold roundSig
  rw [if_pos h]

/-- A value with fewer than 54 significant bits is a double: rounding keeps it. -/
theorem Dbl.round_exact (m e : Int) (h : m.natAbs < 2 ^ 53) : Dbl.round m e = ⟨m, e⟩ := by
  unfold Dbl.round
  rw [roundSig_of_lt _ h]
  simp only [Int.sign_mul_natAbs, Nat.cast_zero, add_zero]

theorem Dbl.ofInt_exact (a : Int) (h0 : 0 ≤ a) (h : a < 2 ^ 53) : Dbl.ofInt a = ⟨a, 0⟩ := by
  apply Dbl.round_exact
  omega

/-- On non-negative integers whose sum is below `2 ^ 53` the double sum is the
integer sum. -/
theorem Dbl.add_int (a b : Int) (ha : 0 ≤ a) (hb : 0 ≤ b) (h : a + b < 2 ^ 53) :
    Dbl.add ⟨a, 0⟩ ⟨b, 0⟩ = ⟨a + b, 0⟩ := by
  unfold Dbl.add
  simp only [min_self, sub_self, Int.toNat_zero, pow_zero, mul_one]
  apply Dbl.round_exact
  omega

/-- On integers the double comparison is the integer comparison. -/
theorem Dbl.le_int (a b : Int) : Dbl.le ⟨a, 0⟩ ⟨b, 0⟩ = decide (a ≤ b) := by
  unfold Dbl.le
  simp only [min_self, sub_self, Int.toNat_zero, pow_zero, mul_one]

/-- While the idle time stays below `2 ^ 53`, the double-precision idle time
after `n` sweeps with an integer tick is the integer `n * tick`. -/
theorem idleAfterDouble_int (tick : Int) (h0 : 0 ≤ tick) (n : Nat)
    (h : (n : Int) * tick < 2 ^ 53) :
    idleAfterDouble ⟨tick, 0⟩ n = ⟨(n : Int) * tick, 0⟩ := by
  induction n with
  | zero =>
    simp only [idleAfterDouble, Nat.cast_zero, zero_mul]
    exact Dbl.ofInt_exact 0 (le_refl _) (by norm_num)
  | succ n ih =>
    have hn : (0 : Int) ≤ (n : Int) := Int.natCast_nonneg n
    have hmul : (0 : Int) ≤ (n : Int) * tick := mul_nonneg hn h0
    have hsucc : ((n + 1 : Nat) : Int) * tick = (n : Int) * tick + tick := by
      push_cast
      ring
    rw [hsucc] at h ⊢
    simp only [idleAfterDouble]
    rw [ih (by omega)]
    exact Dbl.add_int _ _ hmul h0 h

/-! ## The sweep -/

/-- C1: for every well-formed idle table, host enumeration and configuration
(any integers, a timeout of 0 or less included), one sweep leaves an entry whose
id is in the exemption set in the table with idle time 0, whatever its idle time
was, and the discard requests the sweep issues do not contain its id. -/
theorem sweep_exempt_entry_reset (skipPinned : Bool) (tickTime tabTimeout : Int)
    (fetchedTabs : List FetchedTab) (s : State) (k : TabId) (e : Entry)
    (hwf : TabsWF s.tabs) (hk : tabGet s.tabs k = some e)
    (hex : e.id ∈ activeTabs skipPinned fetchedTabs) :
    tabGet (sweep skipPinned tickTime tabTimeout fetchedTabs s).tabs k
        = some { id := e.id, time := 0 } ∧
      ∃ d, (sweep skipPinned tickTime tabTimeout fetchedTabs s).discards = s.discards ++ d ∧
        e.id ∉ d := by
  have hid := entry_id_of_tabGet hwf hk
  rw [hid] at hex
  rw [sweep_closed _ _ _ _ _ hwf]
  refine ⟨?_, _, rfl, ?_⟩
  · show tabGet (s.tabs.filterMap _) k = _
    rw [tabGet_filterMap_sweepEntry _ _ _ _ _ _ hwf.nodup hk]
    simp [sweepEntry, hex]
  · rw [hid, mem_parkedKeys _ _ _ _ _ _ hwf.nodup hk]
    exact fun h => h.1 hex

/-- Witness for C1: tab 1 is active with idle time 50 and the timeout is -5. -/
theorem sweep_exempt_entry_reset_witness :
    TabsWF (stateWithTabs [(1, ⟨1, 50⟩), (2, ⟨2, 0⟩)]).tabs ∧
    tabGet (stateWithTabs [(1, ⟨1, 50⟩), (2, ⟨2, 0⟩)]).tabs 1 = some ⟨1, 50⟩ ∧
    (⟨1, 50⟩ : Entry).id ∈ activeTabs true [⟨1, true, false⟩, ⟨2, false, false⟩] ∧
    (tabGet (sweep true 60 (-5) [⟨1, true, false⟩, ⟨2, false, false⟩]
        (stateWithTabs [(1, ⟨1, 50⟩), (2, ⟨2, 0⟩)])).tabs 1 = some { id := 1, time := 0 } ∧
      ∃ d, (sweep true 60 (-5) [⟨1, true, false⟩, ⟨2, false, false⟩]
          (stateWithTabs [(1, ⟨1, 50⟩), (2, ⟨2, 0⟩)])).discards
            = (stateWithTabs [(1, ⟨1, 50⟩), (2, ⟨2, 0⟩)]).discards ++ d ∧
        (⟨1, 50⟩ : Entry).id ∉ d) :=
  ⟨by decide, by decide, by decide,
    sweep_exempt_entry_reset true 60 (-5) [⟨1, true, false⟩, ⟨2, false, false⟩]
      (stateWithTabs [(1, ⟨1, 50⟩), (2, ⟨2, 0⟩)]) 1 ⟨1, 50⟩ (by decide) (by decide) (by decide)⟩

/-- C2: for every well-formed idle table, host enumeration and configuration,
one sweep gives an entry whose id is not in the exemption set the idle value
old idle + tick; when that value reaches the timeout the entry is removed and
exactly one discard request for its id is issued, otherwise the entry stays with
the new value and no discard request for its id is issued. -/
theorem sweep_non_exempt_entry (skipPinned : Bool) (tickTime tabTimeout : Int)
    (fetchedTabs : List FetchedTab) (s : State) (k : TabId) (e : Entry)
    (hwf : TabsWF s.tabs) (hk : tabGet s.tabs k = some e)
    (hex : e.id ∉ activeTabs skipPinned fetchedTabs) :
    (e.time + tickTime ≥ tabTimeout →
      tabGet (sweep skipPinned tickTime tabTimeout fetchedTabs s).tabs k = none ∧
      ∃ d, (sweep skipPinned tickTime tabTimeout fetchedTabs s).discards = s.discards ++ d ∧
        d.count e.id = 1) ∧
    (¬ e.time + tickTime ≥ tabTimeout →
      tabGet (sweep skipPinned tickTime tabTimeout fetchedTabs s).tabs k
        = some { id := e.id, time := e.time + tickTime } ∧
      ∃ d, (sweep skipPinned tickTime tabTimeout fetchedTabs s).discards = s.discards ++ d ∧
        e.id ∉ d) := by
  have hid := entry_id_of_tabGet hwf hk
  have hex' : k ∉ activeTabs skipPinned fetchedTabs := hid ▸ hex
  have hget := tabGet_filterMap_sweepEntry (activeTabs skipPinned fetchedTabs) tickTime
    tabTimeout s.tabs k e hwf.nodup hk
  have hpark := mem_parkedKeys (activeTabs skipPinned fetchedTabs) tickTime tabTimeout
    s.tabs k e hwf.nodup hk
  rw [sweep_closed _ _ _ _ _ hwf]
  constructor
  · intro hge
    refine ⟨?_, _, rfl, ?_⟩
    · show tabGet (s.tabs.filterMap _) k = _
      rw [hget]
      simp [sweepEntry, hex', hge]
    · rw [hid]
      exact List.count_eq_one_of_mem (parkedKeys_nodup _ _ _ _ hwf.nodup)
        (hpark.mpr ⟨hex', hge⟩)
  · intro hlt
    refine ⟨?_, _, rfl, ?_⟩
    · show tabGet (s.tabs.filterMap _) k = _
      rw [hget]
      simp [sweepEntry, hex', hlt]
    · rw [hid, hpark]
      exact fun h => hlt h.2

/-- Witness for C2: tab 2 is neither active nor pinned and has idle time 60. -/
theorem sweep_non_exempt_entry_witness :
    TabsWF (stateWithTabs [(1, ⟨1, 50⟩), (2, ⟨2, 60⟩)]).tabs ∧
    tabGet (stateWithTabs [(1, ⟨1, 50⟩), (2, ⟨2, 60⟩)]).tabs 2 = some ⟨2, 60⟩ ∧
    (⟨2, 60⟩ : Entry).id ∉ activeTabs true [⟨1, true, false⟩, ⟨2, false, false⟩] ∧
    (((⟨2, 60⟩ : Entry).time + 60 ≥ 120 →
      tabGet (sweep true 60 120 [⟨1, true, false⟩, ⟨2, false, false⟩]
        (stateWithTabs [(1, ⟨1, 50⟩), (2, ⟨2, 60⟩)])).tabs 2 = none ∧
      ∃ d, (sweep true 60 120 [⟨1, true, false⟩, ⟨2, false, false⟩]
          (stateWithTabs [(1, ⟨1, 50⟩), (2, ⟨2, 60⟩)])).discards
            = (stateWithTabs [(1, ⟨1, 50⟩), (2, ⟨2, 60⟩)]).discards ++ d ∧
        d.count (⟨2, 60⟩ : Entry).id = 1) ∧
    (¬ (⟨2, 60⟩ : Entry).time + 60 ≥ 120 →
      tabGet (sweep true 60 120 [⟨1, true, false⟩, ⟨2, false, false⟩]
        (stateWithTabs [(1, ⟨1, 50⟩), (2, ⟨2, 60⟩)])).tabs 2
          = some { id := (⟨2, 60⟩ : Entry).id, time := (⟨2, 60⟩ : Entry).time + 60 } ∧
      ∃ d, (sweep true 60 120 [⟨1, true, false⟩, ⟨2, false, false⟩]
          (stateWithTabs [(1, ⟨1, 50⟩), (2, ⟨2, 60⟩)])).discards
            = (stateWithTabs [(1, ⟨1, 50⟩), (2, ⟨2, 60⟩)]).discards ++ d ∧
        (⟨2, 60⟩ : Entry).id ∉ d)) :=
  ⟨by decide, by decide, by decide,
    sweep_non_exempt_entry true 60 120 [⟨1, true, false⟩, ⟨2, false, false⟩]
      (stateWithTabs [(1, ⟨1, 50⟩), (2, ⟨2, 60⟩)]) 2 ⟨2, 60⟩ (by decide) (by decide) (by decide)⟩

/-! ## Idle time over consecutive sweeps -/

/-- C3, as stated, fails, in two ways. First run, timeout = 120 and tick = 60:
tab 1 is tracked with idle time 0, is never exempt and receives no created,
focus-changed or removed signal; after the first sweep the extension is toggled
off and on again and the enable query enumerates tab 1; the second of the
ceil(120 / 60) = 2 sweeps leaves tab 1 in the table with idle time 60 and no
discard request has been issued. Second run, tick = 0.1 and timeout = 0.8 (the
nearest doubles): ceil(0.8 / 0.1) = 8, yet the double-precision idle time after
8 sweeps is still below the timeout, so no sweep among the first 8 parks the
item; the ninth does. Third run, the integers tick = 2 ^ 52 + 1 and
timeout = 3 * 2 ^ 52 + 4: ceil(timeout / tick) = 4, yet the third double sum
rounds up to the timeout, so the third sweep already parks the item. -/
theorem ceil_sweeps_without_reclaim_counterexample :
    ([TabOp.sweep true 60 120 [⟨1, false, false⟩], TabOp.setState false, TabOp.setState true,
        TabOp.enableQuery [⟨1, false, false⟩],
        TabOp.sweep true 60 120 [⟨1, false, false⟩]].countP TabOp.isSweep
      = ⌈((120 : Int) : ℚ) / ((60 : Int) : ℚ)⌉₊) ∧
    tabGet (stateWithTabs [(1, ⟨1, 0⟩)]).tabs 1 = some ⟨1, 0⟩ ∧
    activeTabs true [⟨1, false, false⟩] = [] ∧
    (runOps (stateWithTabs [(1, ⟨1, 0⟩)])
      [TabOp.sweep true 60 120 [⟨1, false, false⟩], TabOp.setState false, TabOp.setState true,
        TabOp.enableQuery [⟨1, false, false⟩],
        TabOp.sweep true 60 120 [⟨1, false, false⟩]]).tabs = [(1, ⟨1, 60⟩)] ∧
    (runOps (stateWithTabs [(1, ⟨1, 0⟩)])
      [TabOp.sweep true 60 120 [⟨1, false, false⟩], TabOp.setState false, TabOp.setState true,
        TabOp.enableQuery [⟨1, false, false⟩],
        TabOp.sweep true 60 120 [⟨1, false, false⟩]]).discards = [] ∧
    |Dbl.toRat Dbl.oneTenth - 1 / 10| ≤ 1 / 2 ^ 57 ∧
    |Dbl.toRat Dbl.eightTenths - 8 / 10| ≤ 1 / 2 ^ 54 ∧
    ⌈Dbl.toRat Dbl.eightTenths / Dbl.toRat Dbl.oneTenth⌉₊ = 8 ∧
    (List.range 10).map
        (fun n => Dbl.le Dbl.eightTenths (idleAfterDouble Dbl.oneTenth n))
      = [false, false, false, false, false, false, false, false, false, true] ∧
    ⌈((13510798882111492 : Int) : ℚ) / ((4503599627370497 : Int) : ℚ)⌉₊ = 4 ∧
    (List.range 4).map
        (fun n => Dbl.le (Dbl.ofInt 13510798882111492)
          (idleAfterDouble (Dbl.ofInt 4503599627370497) n))
      = [false, false, false, true] := by
  refine ⟨?_, by decide, by decide, by decide, by decide, ?_, ?_, ?_, by decide, ?_,
    by decide⟩
  · simp [TabOp.isSweep, Nat.ceil_eq_iff]
    norm_num
  · norm_num [Dbl.toRat, Dbl.oneTenth, abs_le]
  · norm_num [Dbl.toRat, Dbl.eightTenths, abs_le]
  · norm_num [Dbl.toRat, Dbl.oneTenth, Dbl.eightTenths]
  · rw [Nat.ceil_eq_iff (by norm_num)]
    norm_num

/-- C3, amended: with constant settings whose tick and timeout are integers with
tick > 0, timeout > 0 and timeout + tick <= 2 ^ 53, an item that is in a
well-formed table with idle time 0, is never exempt, receives no created,
focus-changed or removed signal and is not enumerated by an enable query, while
no disable transition completes: over any run of operations holding exactly
ceil(timeout / tick) sweeps, exactly one discard request is issued for the item
and it ends without entry; after any initial part of the run holding fewer
sweeps the item is still in the table, its idle time is the number of sweeps so
far times tick, and no discard request for it has been issued; and up to that
number of sweeps the double-precision `+=` and `>=` of the program yield these
same integers and the same comparisons. -/
theorem idle_item_parked_at_ceil_sweeps (skipPinned : Bool) (tickTime tabTimeout : Int)
    (htick : 0 < tickTime) (htmo : 0 < tabTimeout) (hexact : tabTimeout + tickTime ≤ 2 ^ 53)
    (s : State) (k : TabId)
    (hwf : TabsWF s.tabs) (hk : tabGet s.tabs k = some ⟨k, 0⟩) (ops : List TabOp)
    (hops : ∀ op ∈ ops, op.calmFor skipPinned tickTime tabTimeout k = true)
    (hn : ops.countP TabOp.isSweep = ⌈(tabTimeout : ℚ) / (tickTime : ℚ)⌉₊) :
    (tabGet (runOps s ops).tabs k = none ∧
      ∃ d, (runOps s ops).discards = s.discards ++ d ∧ d.count k = 1) ∧
    (∀ pre suf : List TabOp, ops = pre ++ suf →
      pre.countP TabOp.isSweep < ⌈(tabTimeout : ℚ) / (tickTime : ℚ)⌉₊ →
      tabGet (runOps s pre).tabs k
        = some ⟨k, (pre.countP TabOp.isSweep : Int) * tickTime⟩ ∧
      ∃ d, (runOps s pre).discards = s.discards ++ d ∧ k ∉ d) ∧
    ∀ j : Nat, j ≤ ⌈(tabTimeout : ℚ) / (tickTime : ℚ)⌉₊ →
      idleAfterDouble (Dbl.ofInt tickTime) j = Dbl.ofInt ((j : Int) * tickTime) ∧
      Dbl.le (Dbl.ofInt tabTimeout) (idleAfterDouble (Dbl.ofInt tickTime) j)
        = decide (tabTimeout ≤ (j : Int) * tickTime) := by
  have htq : (0 : ℚ) < (tickTime : ℚ) := by exact_mod_cast htick
  have hoq : (0 : ℚ) < (tabTimeout : ℚ) := by exact_mod_cast htmo
  have hpos : (0 : ℚ) < (tabTimeout : ℚ) / (tickTime : ℚ) := div_pos hoq htq
  have hceil : ((⌈(tabTimeout : ℚ) / (tickTime : ℚ)⌉₊ : Int) - 1) * tickTime < tabTimeout := by
    have := Nat.ceil_lt_add_one (le_of_lt hpos)
    rw [← sub_lt_iff_lt_add, lt_div_iff₀ htq] at this
    have h2 : (((⌈(tabTimeout : ℚ) / (tickTime : ℚ)⌉₊ : Int) : ℚ) - 1) * (tickTime : ℚ)
        < (tabTimeout : ℚ) := by
      simpa using this
    exact_mod_cast h2
  refine ⟨?_, ?_, ?_⟩
  · have h1 : 1 ≤ ops.countP TabOp.isSweep := by
      rw [hn]
      exact Nat.ceil_pos.mpr hpos
    have hge : (0 : Int) + (ops.countP TabOp.isSweep : Int) * tickTime ≥ tabTimeout := by
      rw [hn]
      have := Nat.le_ceil ((tabTimeout : ℚ) / (tickTime : ℚ))
      rw [div_le_iff₀ htq] at this
      have h2 : (tabTimeout : ℚ) ≤
          ((⌈(tabTimeout : ℚ) / (tickTime : ℚ)⌉₊ : Int) : ℚ) * (tickTime : ℚ) := by
        simpa using this
      have h3 : tabTimeout ≤ (⌈(tabTimeout : ℚ) / (tickTime : ℚ)⌉₊ : Int) * tickTime := by
        exact_mod_cast h2
      linarith
    have hlt : (0 : Int) + ((ops.countP TabOp.isSweep : Int) - 1) * tickTime < tabTimeout := by
      rw [hn]
      linarith
    exact runOps_calm_reach skipPinned tickTime tabTimeout k htick ops s 0 hwf hk hops h1 hge hlt
  · intro pre suf hsplit hpre
    have hcalm : ∀ op ∈ pre, op.calmFor skipPinned tickTime tabTimeout k = true := by
      intro op hop
      exact hops op (by rw [hsplit]; exact List.mem_append_left _ hop)
    have hlt : (0 : Int) + (pre.countP TabOp.isSweep : Int) * tickTime < tabTimeout := by
      have := Nat.lt_ceil.mp hpre
      rw [lt_div_iff₀ htq] at this
      have h2 : (((pre.countP TabOp.isSweep : Int) : ℚ)) * (tickTime : ℚ) < (tabTimeout : ℚ) := by
        simpa using this
      have h3 : (pre.countP TabOp.isSweep : Int) * tickTime < tabTimeout := by
        exact_mod_cast h2
      linarith
    obtain ⟨_, g, d, hd, hdk⟩ :=
      runOps_calm_below skipPinned tickTime tabTimeout k htick pre s 0 hwf hk hcalm hlt
    refine ⟨?_, d, hd, hdk⟩
    rw [g]
    simp
  · intro j hj
    have hj' : (j : Int) ≤ (⌈(tabTimeout : ℚ) / (tickTime : ℚ)⌉₊ : Int) := by exact_mod_cast hj
    have hj0 : (0 : Int) ≤ (j : Int) := Int.natCast_nonneg j
    have hjt : (j : Int) * tickTime < 2 ^ 53 := by
      have h1 : (j : Int) * tickTime
          ≤ (⌈(tabTimeout : ℚ) / (tickTime : ℚ)⌉₊ : Int) * tickTime :=
        mul_le_mul_of_nonneg_right hj' (le_of_lt htick)
      linarith
    have hjt0 : (0 : Int) ≤ (j : Int) * tickTime := mul_nonneg hj0 (le_of_lt htick)
    rw [Dbl.ofInt_exact tickTime (le_of_lt htick) (by linarith),
      Dbl.ofInt_exact tabTimeout (le_of_lt htmo) (by linarith),
      Dbl.ofInt_exact _ hjt0 hjt,
      idleAfterDouble_int tickTime (le_of_lt htick) j hjt]
    exact ⟨rfl, Dbl.le_int _ _⟩

/-- Witness for C3 amended, the scenario timeout = 120, tick = 60, pinned tabs
exempt: tab 1 is neither focused nor pinned, tab 2 is pinned, tab 3 is focused
during the first sweep only. Two sweeps park tab 1 exactly once; after the first
one tab 1 has idle time 60 and no discard request has been issued; tab 2 keeps
idle time 0, tab 3 has idle time 0 after the first and 60 after the second
sweep. -/
theorem idle_item_parked_at_ceil_sweeps_witness :
    (0 : Int) < 60 ∧ (0 : Int) < 120 ∧ (120 : Int) + 60 ≤ 2 ^ 53 ∧
    TabsWF (stateWithTabs [(1, ⟨1, 0⟩), (2, ⟨2, 0⟩), (3, ⟨3, 0⟩)]).tabs ∧
    tabGet (stateWithTabs [(1, ⟨1, 0⟩), (2, ⟨2, 0⟩), (3, ⟨3, 0⟩)]).tabs 1 = some ⟨1, 0⟩ ∧
    (∀ op ∈ [TabOp.sweep true 60 120 [⟨1, false, false⟩, ⟨2, false, true⟩, ⟨3, true, false⟩],
        TabOp.sweep true 60 120 [⟨1, false, false⟩, ⟨2, false, true⟩, ⟨3, false, false⟩]],
      op.calmFor true 60 120 1 = true) ∧
    ([TabOp.sweep true 60 120 [⟨1, false, false⟩, ⟨2, false, true⟩, ⟨3, true, false⟩],
        TabOp.sweep true 60 120 [⟨1, false, false⟩, ⟨2, false, true⟩, ⟨3, false, false⟩]].countP
          TabOp.isSweep = ⌈((120 : Int) : ℚ) / ((60 : Int) : ℚ)⌉₊) ∧
    ((tabGet (runOps (stateWithTabs [(1, ⟨1, 0⟩), (2, ⟨2, 0⟩), (3, ⟨3, 0⟩)])
        [TabOp.sweep true 60 120 [⟨1, false, false⟩, ⟨2, false, true⟩, ⟨3, true, false⟩],
         TabOp.sweep true 60 120 [⟨1, false, false⟩, ⟨2, false, true⟩, ⟨3, false, false⟩]]).tabs 1
          = none ∧
      ∃ d, (runOps (stateWithTabs [(1, ⟨1, 0⟩), (2, ⟨2, 0⟩), (3, ⟨3, 0⟩)])
        [TabOp.sweep true 60 120 [⟨1, false, false⟩, ⟨2, false, true⟩, ⟨3, true, false⟩],
         TabOp.sweep true 60 120 [⟨1, false, false⟩, ⟨2, false, true⟩, ⟨3, false, false⟩]]).discards
          = (stateWithTabs [(1, ⟨1, 0⟩), (2, ⟨2, 0⟩), (3, ⟨3, 0⟩)]).discards ++ d ∧
        d.count 1 = 1)) ∧
    (runOps (stateWithTabs [(1, ⟨1, 0⟩), (2, ⟨2, 0⟩), (3, ⟨3, 0⟩)])
        [TabOp.sweep true 60 120 [⟨1, false, false⟩, ⟨2, false, true⟩, ⟨3, true, false⟩]]).tabs
      = [(1, ⟨1, 60⟩), (2, ⟨2, 0⟩), (3, ⟨3, 0⟩)] ∧
    (runOps (stateWithTabs [(1, ⟨1, 0⟩), (2, ⟨2, 0⟩), (3, ⟨3, 0⟩)])
        [TabOp.sweep true 60 120 [⟨1, false, false⟩, ⟨2, false, true⟩, ⟨3, true, false⟩]]).discards
      = [] ∧
    (runOps (stateWithTabs [(1, ⟨1, 0⟩), (2, ⟨2, 0⟩), (3, ⟨3, 0⟩)])
        [TabOp.sweep true 60 120 [⟨1, false, false⟩, ⟨2, false, true⟩, ⟨3, true, false⟩],
         TabOp.sweep true 60 120 [⟨1, false, false⟩, ⟨2, false, true⟩, ⟨3, false, false⟩]]).tabs
      = [(2, ⟨2, 0⟩), (3, ⟨3, 60⟩)] ∧
    (runOps (stateWithTabs [(1, ⟨1, 0⟩), (2, ⟨2, 0⟩), (3, ⟨3, 0⟩)])
        [TabOp.sweep true 60 120 [⟨1, false, false⟩, ⟨2, false, true⟩, ⟨3, true, false⟩],
         TabOp.sweep true 60 120 [⟨1, false, false⟩, ⟨2, false, true⟩, ⟨3, false, false⟩]]).discards
      = [1] ∧
    (List.range 3).map (fun n => idleAfterDouble (Dbl.ofInt 60) n)
      = [Dbl.ofInt 0, Dbl.ofInt 60, Dbl.ofInt 120] :=
  ⟨by decide, by decide, by decide, by decide, by decide, by decide,
    by simp [TabOp.isSweep, Nat.ceil_eq_iff]; norm_num,
    (idle_item_parked_at_ceil_sweeps true 60 120 (by decide) (by decide) (by decide)
      (stateWithTabs [(1, ⟨1, 0⟩), (2, ⟨2, 0⟩), (3, ⟨3, 0⟩)]) 1 (by decide) (by decide)
      [TabOp.sweep true 60 120 [⟨1, false, false⟩, ⟨2, false, true⟩, ⟨3, true, false⟩],
       TabOp.sweep true 60 120 [⟨1, false, false⟩, ⟨2, false, true⟩, ⟨3, false, false⟩]]
      (by decide) (by simp [TabOp.isSweep, Nat.ceil_eq_iff]; norm_num)).1,
    by decide, by decide, by decide, by decide, by decide⟩

/-! ## Entries absent from the query result -/

/-- C5, as stated, fails: tab 1 is tracked with idle time 0 and the host query
returns no tab at all; the sweep with tick 60 and timeout 900 changes its idle
time to 60, and the sweep with tick 60 and timeout 60 removes the entry and
issues a discard request for it. -/
theorem sweep_absent_entry_counterexample :
    TabsWF (stateWithTabs [(1, ⟨1, 0⟩)]).tabs ∧
    tabGet (stateWithTabs [(1, ⟨1, 0⟩)]).tabs 1 = some ⟨1, 0⟩ ∧
    (1 : TabId) ∉ ([] : List FetchedTab).map (fun tab => tab.id) ∧
    tabGet (sweep true 60 900 [] (stateWithTabs [(1, ⟨1, 0⟩)])).tabs 1 = some ⟨1, 60⟩ ∧
    tabGet (sweep true 60 900 [] (stateWithTabs [(1, ⟨1, 0⟩)])).tabs 1
      ≠ tabGet (stateWithTabs [(1, ⟨1, 0⟩)]).tabs 1 ∧
    tabGet (sweep true 60 60 [] (stateWithTabs [(1, ⟨1, 0⟩)])).tabs 1 = none ∧
    (sweep true 60 60 [] (stateWithTabs [(1, ⟨1, 0⟩)])).discards = [1] := by
  decide

/-- C5, amended: one sweep treats an entry whose id does not appear in the host
query result as a non-exempt entry: its idle value becomes old idle + tick; when
that value reaches the timeout the entry is removed and exactly one discard
request for its id is issued, otherwise it stays with the new value and no
discard request for its id is issued. -/
theorem sweep_absent_entry_ages (skipPinned : Bool) (tickTime tabTimeout : Int)
    (fetchedTabs : List FetchedTab) (s : State) (k : TabId) (e : Entry)
    (hwf : TabsWF s.tabs) (hk : tabGet s.tabs k = some e)
    (habs : e.id ∉ fetchedTabs.map (fun tab => tab.id)) :
    e.id ∉ activeTabs skipPinned fetchedTabs ∧
    (e.time + tickTime ≥ tabTimeout →
      tabGet (sweep skipPinned tickTime tabTimeout fetchedTabs s).tabs k = none ∧
      ∃ d, (sweep skipPinned tickTime tabTimeout fetchedTabs s).discards = s.discards ++ d ∧
        d.count e.id = 1) ∧
    (¬ e.time + tickTime ≥ tabTimeout →
      tabGet (sweep skipPinned tickTime tabTimeout fetchedTabs s).tabs k
        = some { id := e.id, time := e.time + tickTime } ∧
      ∃ d, (sweep skipPinned tickTime tabTimeout fetchedTabs s).discards = s.discards ++ d ∧
        e.id ∉ d) :=
  ⟨not_mem_activeTabs_of_not_fetched skipPinned fetchedTabs e.id habs,
    sweep_of_not_exempt skipPinned tickTime tabTimeout fetchedTabs s k e hwf hk
      (not_mem_activeTabs_of_not_fetched skipPinned fetchedTabs e.id habs)⟩

/-- Witness for C5 amended: tab 3 is tracked and absent from the query result. -/
theorem sweep_absent_entry_ages_witness :
    TabsWF (stateWithTabs [(3, ⟨3, 10⟩)]).tabs ∧
    tabGet (stateWithTabs [(3, ⟨3, 10⟩)]).tabs 3 = some ⟨3, 10⟩ ∧
    (⟨3, 10⟩ : Entry).id ∉ ([⟨1, true, false⟩] : List FetchedTab).map (fun tab => tab.id) ∧
    ((⟨3, 10⟩ : Entry).id ∉ activeTabs true [⟨1, true, false⟩] ∧
    ((⟨3, 10⟩ : Entry).time + 60 ≥ 900 →
      tabGet (sweep true 60 900 [⟨1, true, false⟩] (stateWithTabs [(3, ⟨3, 10⟩)])).tabs 3 = none ∧
      ∃ d, (sweep true 60 900 [⟨1, true, false⟩] (stateWithTabs [(3, ⟨3, 10⟩)])).discards
          = (stateWithTabs [(3, ⟨3, 10⟩)]).discards ++ d ∧
        d.count (⟨3, 10⟩ : Entry).id = 1) ∧
    (¬ (⟨3, 10⟩ : Entry).time + 60 ≥ 900 →
      tabGet (sweep true 60 900 [⟨1, true, false⟩] (stateWithTabs [(3, ⟨3, 10⟩)])).tabs 3
        = some { id := (⟨3, 10⟩ : Entry).id, time := (⟨3, 10⟩ : Entry).time + 60 } ∧
      ∃ d, (sweep true 60 900 [⟨1, true, false⟩] (stateWithTabs [(3, ⟨3, 10⟩)])).discards
          = (stateWithTabs [(3, ⟨3, 10⟩)]).discards ++ d ∧
        (⟨3, 10⟩ : Entry).id ∉ d)) :=
  ⟨by decide, by decide, by decide,
    sweep_absent_entry_ages true 60 900 [⟨1, true, false⟩] (stateWithTabs [(3, ⟨3, 10⟩)]) 3
      ⟨3, 10⟩ (by decide) (by decide) (by decide)⟩

/-! ## `parkTab` and the lifecycle listeners -/

/-- C4: for every idle table and id, `parkTab(id)` hands the host a state whose
table already lacks the entry for id, leaves every other entry unchanged and
issues exactly one discard request, for id; whatever the host then reports to
the discard callback (an error, no tab, a tab), the callback runs, leaves the
table as it was after the removal (the entry is not restored) and issues no
further discard request and no query. -/
theorem parkTab_removes_then_discards (s : State) (tabId : TabId) :
    (∃ s1, parkTab tabId s = discard tabId s1 ∧ tabGet s1.tabs tabId = none ∧
      s1.discards = s.discards) ∧
    tabGet (parkTab tabId s).tabs tabId = none ∧
    (∀ j, j ≠ tabId → tabGet (parkTab tabId s).tabs j = tabGet s.tabs j) ∧
    (parkTab tabId s).discards = s.discards ++ [tabId] ∧
    ∀ o : DiscardOutcome, ∃ s2,
      step (parkTab tabId s) (Event.discardReturned tabId o) = some s2 ∧
      s2.tabs = (parkTab tabId s).tabs ∧
      tabGet s2.tabs tabId = none ∧
      s2.discards = (parkTab tabId s).discards ∧
      s2.queries = (parkTab tabId s).queries := by
  refine ⟨⟨{ s with tabs := tabDelete s.tabs tabId }, rfl, tabGet_tabDelete_self _ _, rfl⟩,
    tabGet_tabDelete_self _ _, fun j hj => tabGet_tabDelete_ne _ _ _ hj, rfl, ?_⟩
  intro o
  have hmem : Cont.discardCb tabId ∈ (parkTab tabId s).conts := by
    simp [parkTab, discard]
  have hstep : step (parkTab tabId s) (Event.discardReturned tabId o)
      = some (discardCallback tabId o
          { parkTab tabId s with
            conts := (parkTab tabId s).conts.erase (Cont.discardCb tabId) }) := by
    simp only [step, hmem, if_true]
  refine ⟨_, hstep, ?_, ?_, ?_, ?_⟩
  · cases o <;> rfl
  · cases o <;> exact tabGet_tabDelete_self _ _
  · cases o <;> rfl
  · cases o <;> rfl

/-- C6: for every idle table and id, the `onRemoved` listener yields a table
with no entry for id, whatever idle time it had, and leaves every other entry
unchanged; when id has no entry the table is unchanged, and applying the
listener twice equals applying it once; and after it, any run of operations
that contains no created, focus-changed or enable event for id (sweeps with any
settings and enumeration included) leaves id without entry and issues no discard
request for id. -/
theorem onRemoved_forgets_item (s : State) (tabId : TabId) :
    tabGet (onRemoved tabId s).tabs tabId = none ∧
    (∀ j, j ≠ tabId → tabGet (onRemoved tabId s).tabs j = tabGet s.tabs j) ∧
    (tabGet s.tabs tabId = none → (onRemoved tabId s).tabs = s.tabs) ∧
    (onRemoved tabId (onRemoved tabId s)).tabs = (onRemoved tabId s).tabs ∧
    ∀ ops : List TabOp, (∀ op ∈ ops, op.noReviveOf tabId = true) →
      tabGet (runOps (onRemoved tabId s) ops).tabs tabId = none ∧
      ∃ d, (runOps (onRemoved tabId s) ops).discards = s.discards ++ d ∧ tabId ∉ d := by
  refine ⟨tabGet_tabDelete_self _ _, fun j hj => tabGet_tabDelete_ne _ _ _ hj, ?_, ?_, ?_⟩
  · intro h
    exact tabDelete_of_not_mem _ _ (not_mem_tabKeys_of_tabGet_none _ _ h)
  · exact tabDelete_idem _ _
  · intro ops hops
    have hk : tabId ∉ tabKeys (onRemoved tabId s).tabs :=
      not_mem_tabKeys_of_tabGet_none _ _ (tabGet_tabDelete_self _ _)
    obtain ⟨h1, d, hd, hdk⟩ := runOps_untracked tabId ops (onRemoved tabId s) hops hk
    exact ⟨tabGet_eq_none_of_not_mem _ _ h1, d, hd, hdk⟩

/-- Witness for C6: tab 2 had reached idle time 840; after its removal a tab is
created, a sweep that would have parked tab 2 runs, and tab 2 is removed again. -/
theorem onRemoved_forgets_item_witness :
    (∀ op ∈ [TabOp.created ⟨7, true, false⟩, TabOp.sweep true 60 900 [⟨7, true, false⟩],
        TabOp.removed 2], op.noReviveOf 2 = true) ∧
    tabGet (runOps (onRemoved 2 (stateWithTabs [(1, ⟨1, 0⟩), (2, ⟨2, 840⟩)]))
      [TabOp.created ⟨7, true, false⟩, TabOp.sweep true 60 900 [⟨7, true, false⟩],
        TabOp.removed 2]).tabs 2 = none ∧
    ∃ d, (runOps (onRemoved 2 (stateWithTabs [(1, ⟨1, 0⟩), (2, ⟨2, 840⟩)]))
      [TabOp.created ⟨7, true, false⟩, TabOp.sweep true 60 900 [⟨7, true, false⟩],
        TabOp.removed 2]).discards
        = (stateWithTabs [(1, ⟨1, 0⟩), (2, ⟨2, 840⟩)]).discards ++ d ∧ 2 ∉ d :=
  ⟨by decide,
    (onRemoved_forgets_item (stateWithTabs [(1, ⟨1, 0⟩), (2, ⟨2, 840⟩)]) 2).2.2.2.2
      [TabOp.created ⟨7, true, false⟩, TabOp.sweep true 60 900 [⟨7, true, false⟩],
        TabOp.removed 2] (by decide)⟩

/-- C7: for every idle table and id, the `onCreated` listener and the
`onSelectionChanged` listener each yield a table in which id has the entry
`{ id, time: 0 }`, whether or not it had one and whatever its idle time was,
while the entry of every other id is unchanged; applying either listener twice
for the same id yields the same table as applying it once. -/
theorem onCreated_onSelectionChanged_upsert_zero (s : State) (tab : FetchedTab)
    (tabId : TabId) :
    (tabGet (onCreated tab s).tabs tab.id = some { id := tab.id, time := 0 } ∧
      (∀ j, j ≠ tab.id → tabGet (onCreated tab s).tabs j = tabGet s.tabs j) ∧
      (onCreated tab (onCreated tab s)).tabs = (onCreated tab s).tabs) ∧
    (tabGet (onSelectionChanged tabId s).tabs tabId = some { id := tabId, time := 0 } ∧
      (∀ j, j ≠ tabId → tabGet (onSelectionChanged tabId s).tabs j = tabGet s.tabs j) ∧
      (onSelectionChanged tabId (onSelectionChanged tabId s)).tabs
        = (onSelectionChanged tabId s).tabs) := by
  refine ⟨⟨tabGet_tabAssign_self _ _ _, fun j hj => tabGet_tabAssign_ne _ _ _ _ hj, ?_⟩,
    ⟨tabGet_tabAssign_self _ _ _, fun j hj => tabGet_tabAssign_ne _ _ _ _ hj, ?_⟩⟩
  · exact tabAssign_idem _ _ _
  · exact tabAssign_idem _ _ _

/-! ## The enable/disable switch -/

/-- C8: from every prior state, `setExtensionState(false)` runs to its end and
ends in a state where the idle table is empty, `ticker` is null, the timer whose
handle `ticker` held is no longer armed and no timer has been armed, the
persisted `active` flag is false and the other settings are unchanged, the icon
and title are the inactive ones, and no host tab query and no discard request
has been issued. -/
theorem setExtensionState_false_tears_down (s : State) :
    ∃ s1, step (setExtensionState false s) (Event.resolved (Cont.setStateSet false)) = some s1 ∧
      s1.tabs = [] ∧ s1.ticker = none ∧
      (∀ h, s.ticker = some h → h ∉ s1.timers) ∧
      (∀ h ∈ s1.timers, h ∈ s.timers) ∧
      s1.store.active = false ∧ s1.store.timeout = s.store.timeout ∧
      s1.store.tick = s.store.tick ∧ s1.store.pinned = s.store.pinned ∧
      s1.icon = some "img/icon19_off.png" ∧ s1.title = some "browserActionInactive" ∧
      s1.queries = s.queries ∧ s1.discards = s.discards := by
  obtain ⟨s1, hstep, htabs, htick, htimers, hstore, hicon, htitle, hq, hd⟩ := disable_run s
  refine ⟨s1, hstep, htabs, htick, ?_, ?_, ?_, ?_, ?_, ?_, hicon, htitle, hq, hd⟩
  · intro h hh hmem
    rw [htimers, List.mem_filter] at hmem
    simp [hh] at hmem
  · intro h hmem
    rw [htimers] at hmem
    exact List.mem_of_mem_filter hmem
  · rw [hstore]
  · rw [hstore]
  · rw [hstore]
  · rw [hstore]

/-- C9: from every prior state and for every host enumeration,
`setExtensionState(false)` run to its end followed by `setExtensionState(true)`
run to its end (the query answered before or after the tick length is read)
yields an idle table whose keys are exactly the enumerated ids, each with the
entry `{ id, time: 0 }`; it is the table that enabling from the initial state
yields for that enumeration, both by a direct call and by the module start
with the persisted flag true. -/
theorem disable_then_enable_is_fresh_bootstrap (s : State) (fetchedTabs : List FetchedTab)
    (queryFirst queryFirst' : Bool) (persisted : Settings) :
    ∃ s1 s2 s3 s4,
      step (setExtensionState false s) (Event.resolved (Cont.setStateSet false)) = some s1 ∧
      run (setExtensionState true s1) (enableEvents fetchedTabs queryFirst) = some s2 ∧
      run (setExtensionState true (initial persisted)) (enableEvents fetchedTabs queryFirst')
        = some s3 ∧
      run (start (initial { persisted with active := true }))
        ([Event.resolved Cont.startReady, Event.resolved Cont.startGet]
          ++ enableEvents fetchedTabs queryFirst') = some s4 ∧
      (∀ k, k ∈ tabKeys s2.tabs ↔ k ∈ fetchedTabs.map (fun tab => tab.id)) ∧
      (∀ k e, tabGet s2.tabs k = some e → e = { id := k, time := 0 }) ∧
      TabsWF s2.tabs ∧
      s2.tabs = s3.tabs ∧ s2.tabs = s4.tabs := by
  obtain ⟨s1, hstep1, htabs1, _⟩ := disable_run s
  obtain ⟨s2, hrun2, htabs2, _⟩ := enable_run s1 fetchedTabs queryFirst
  obtain ⟨s3, hrun3, htabs3, _⟩ := enable_run (initial persisted) fetchedTabs queryFirst'
  obtain ⟨s0, hstart, htabs0, _⟩ := start_run { persisted with active := true }
  obtain ⟨s4, hrun4, htabs4, _⟩ := enable_run s0 fetchedTabs queryFirst'
  refine ⟨s1, s2, s3, s4, hstep1, hrun2, hrun3, ?_, ?_, ?_, ?_, ?_, ?_⟩
  · rw [run_append, hstart]
    exact hrun4
  · intro k
    rw [htabs2, htabs1, mem_tabKeys_seed]
    simp [tabKeys]
  · intro k e he
    have hmem : k ∈ fetchedTabs.map (fun tab => tab.id) := by
      have := (mem_tabKeys_iff_tabGet _ _).mpr ⟨e, he⟩
      rw [htabs2, htabs1, mem_tabKeys_seed] at this
      simpa [tabKeys] using this
    rw [htabs2, tabGet_seed_of_mem _ _ _ hmem] at he
    exact (Option.some.inj he).symm
  · rw [htabs2, htabs1]
    exact TabsWF_seed _ _ ⟨List.Pairwise.nil, by simp⟩
  · rw [htabs2, htabs3, htabs1]
    rfl
  · rw [htabs2, htabs4, htabs1, htabs0]

/-- C10 fails on the code. The extension starts with timeout 60 and tick 60 and
is enabled with timer 1 armed; the icon is clicked and `setExtensionState(false)`
is called; timer 1 fires and `tick` waits for its settings; then
`setExtensionState(false)` completes (flag false, table empty, no timer armed).
No enable transition follows, yet: when the waiting `tick` resumes it arms timer
2; a tab is created; the query callback of that `tick` sweeps the table and
issues a discard request for the new tab. -/
theorem disable_does_not_stop_started_tick :
    (run (start (initial { active := true, timeout := 60, tick := 60, pinned := true }))
      [Event.resolved Cont.startReady, Event.resolved Cont.startGet,
        Event.resolved (Cont.setStateSet true),
        Event.queryReturned Cont.enableQuery [⟨1, true, false⟩],
        Event.resolved Cont.enableGet,
        Event.iconClicked, Event.resolved Cont.clickGet,
        Event.timerFired 1,
        Event.resolved (Cont.setStateSet false)]).map
        (fun s => (s.store.active, s.ticker, s.timers, s.tabs, s.discards, s.conts))
      = some (false, none, [], [], [], [Cont.tickGet]) ∧
    (run (start (initial { active := true, timeout := 60, tick := 60, pinned := true }))
      [Event.resolved Cont.startReady, Event.resolved Cont.startGet,
        Event.resolved (Cont.setStateSet true),
        Event.queryReturned Cont.enableQuery [⟨1, true, false⟩],
        Event.resolved Cont.enableGet,
        Event.iconClicked, Event.resolved Cont.clickGet,
        Event.timerFired 1,
        Event.resolved (Cont.setStateSet false),
        Event.resolved Cont.tickGet]).map
        (fun s => (s.store.active, s.ticker, s.timers, s.tabs, s.discards))
      = some (false, some 2, [2], [], []) ∧
    (run (start (initial { active := true, timeout := 60, tick := 60, pinned := true }))
      [Event.resolved Cont.startReady, Event.resolved Cont.startGet,
        Event.resolved (Cont.setStateSet true),
        Event.queryReturned Cont.enableQuery [⟨1, true, false⟩],
        Event.resolved Cont.enableGet,
        Event.iconClicked, Event.resolved Cont.clickGet,
        Event.timerFired 1,
        Event.resolved (Cont.setStateSet false),
        Event.resolved Cont.tickGet,
        Event.tabCreated ⟨5, false, false⟩]).map
        (fun s => (s.store.active, s.timers, s.tabs, s.discards))
      = some (false, [2], [(5, ⟨5, 0⟩)], []) ∧
    (run (start (initial { active := true, timeout := 60, tick := 60, pinned := true }))
      [Event.resolved Cont.startReady, Event.resolved Cont.startGet,
        Event.resolved (Cont.setStateSet true),
        Event.queryReturned Cont.enableQuery [⟨1, true, false⟩],
        Event.resolved Cont.enableGet,
        Event.iconClicked, Event.resolved Cont.clickGet,
        Event.timerFired 1,
        Event.resolved (Cont.setStateSet false),
        Event.resolved Cont.tickGet,
        Event.tabCreated ⟨5, false, false⟩,
        Event.queryReturned (Cont.tickQuery true 60 60) [⟨5, false, false⟩]]).map
        (fun s => (s.store.active, s.timers, s.tabs, s.discards))
      = some (false, [2], [], [5]) :=
  ⟨rfl, rfl, rfl, rfl⟩

/-! ## The exemption set -/

/-- C14: for every host enumeration and every value of the pinned-exemption
flag, an id is in the exemption set of a sweep exactly when some enumerated item
with that id is active, or is pinned while the flag is true; with the flag false
an id whose enumerated items are all non-active is not exempt, pinned or not;
and the sweep run from any state, whatever earlier sweeps did, tests its entries
against this set, which is computed from the flag and the enumeration alone. -/
theorem activeTabs_iff_active_or_pinned (skipPinned : Bool) (fetchedTabs : List FetchedTab)
    (k : TabId) :
    (k ∈ activeTabs skipPinned fetchedTabs ↔
      ∃ tab ∈ fetchedTabs, tab.id = k ∧
        (tab.active = true ∨ (tab.pinned = true ∧ skipPinned = true))) ∧
    ((∀ tab ∈ fetchedTabs, tab.id = k → tab.active = false) →
      k ∉ activeTabs false fetchedTabs) ∧
    (∀ (tickTime tabTimeout : Int) (s : State),
      sweep skipPinned tickTime tabTimeout fetchedTabs s =
        match sweepKeys (activeTabs skipPinned fetchedTabs) tickTime tabTimeout
            (tabKeys s.tabs) s with
        | .ok s1 => s1
        | .error s1 => s1) := by
  have hiff : ∀ p : Bool, k ∈ activeTabs p fetchedTabs ↔
      ∃ tab ∈ fetchedTabs, tab.id = k ∧ (tab.active = true ∨ (tab.pinned = true ∧ p = true)) := by
    intro p
    unfold activeTabs
    simp only [List.mem_map, List.mem_filter, Bool.or_eq_true, Bool.and_eq_true]
    constructor
    · rintro ⟨tab, ⟨hmem, hcond⟩, hid⟩
      refine ⟨tab, hmem, hid, ?_⟩
      rcases hcond with h | ⟨h1, h2⟩
      · exact Or.inl h
      · exact Or.inr ⟨h2, h1⟩
    · rintro ⟨tab, hmem, hid, hcond⟩
      refine ⟨tab, ⟨hmem, ?_⟩, hid⟩
      rcases hcond with h | ⟨h1, h2⟩
      · exact Or.inl h
      · exact Or.inr ⟨h2, h1⟩
  refine ⟨hiff skipPinned, ?_, fun _ _ _ => rfl⟩
  intro hall hmem
  obtain ⟨tab, htab, hid, hcond⟩ := (hiff false).mp hmem
  rcases hcond with h | ⟨_, h⟩
  · rw [hall tab htab hid] at h
    cases h
  · cases h

/-- Witness for C14: tab 2 is pinned and not active, the flag is false. -/
theorem activeTabs_iff_active_or_pinned_witness :
    (∀ tab ∈ ([⟨1, true, false⟩, ⟨2, false, true⟩] : List FetchedTab),
      tab.id = 2 → tab.active = false) ∧
    (2 : TabId) ∉ activeTabs false [⟨1, true, false⟩, ⟨2, false, true⟩] ∧
    (2 : TabId) ∈ activeTabs true [⟨1, true, false⟩, ⟨2, false, true⟩] :=
  ⟨by decide,
    (activeTabs_iff_active_or_pinned false [⟨1, true, false⟩, ⟨2, false, true⟩] 2).2.1
      (by decide),
    by decide⟩

/-! ## What a sweep can touch -/

/-- C17: for every idle table, host enumeration and configuration, the keys of
the table after a sweep are keys of the table before it, so an enumerated item
without entry gets none, and every id the sweep issues a discard request for
was a key of the table before the sweep. -/
theorem sweep_acts_on_tracked_items_only (skipPinned : Bool) (tickTime tabTimeout : Int)
    (fetchedTabs : List FetchedTab) (s : State) :
    (∀ k ∈ tabKeys (sweep skipPinned tickTime tabTimeout fetchedTabs s).tabs,
      k ∈ tabKeys s.tabs) ∧
    (∀ tab ∈ fetchedTabs, tabGet s.tabs tab.id = none →
      tabGet (sweep skipPinned tickTime tabTimeout fetchedTabs s).tabs tab.id = none) ∧
    ∃ d, (sweep skipPinned tickTime tabTimeout fetchedTabs s).discards = s.discards ++ d ∧
      ∀ k ∈ d, k ∈ tabKeys s.tabs := by
  obtain ⟨hkeys, d, hd, hdk⟩ := sweep_keys skipPinned tickTime tabTimeout fetchedTabs s
  refine ⟨hkeys, ?_, d, hd, hdk⟩
  intro tab _ hnone
  apply tabGet_eq_none_of_not_mem
  intro hmem
  exact not_mem_tabKeys_of_tabGet_none _ _ hnone (hkeys _ hmem)

/-- Witness for C17: tab 9 is enumerated and not tracked. -/
theorem sweep_acts_on_tracked_items_only_witness :
    tabGet (stateWithTabs [(1, ⟨1, 0⟩)]).tabs (⟨9, false, false⟩ : FetchedTab).id = none ∧
    tabGet (sweep true 60 900 [⟨9, false, false⟩] (stateWithTabs [(1, ⟨1, 0⟩)])).tabs
      (⟨9, false, false⟩ : FetchedTab).id = none :=
  ⟨by decide,
    (sweep_acts_on_tracked_items_only true 60 900 [⟨9, false, false⟩]
      (stateWithTabs [(1, ⟨1, 0⟩)])).2.1 ⟨9, false, false⟩ (by decide) (by decide)⟩

/-! ## Invariants of the reachable states -/

/-- C11, as stated, fails: the extension starts with the persisted flag false,
the disable transition completes, and then a tab is created; the subsystem is
disabled and the idle table holds an entry for the new tab. -/
theorem disabled_table_not_empty_counterexample :
    (run (start (initial { active := false, timeout := 900, tick := 60, pinned := true }))
      [Event.resolved Cont.startReady, Event.resolved Cont.startGet,
        Event.resolved (Cont.setStateSet false)]).map
        (fun s => (s.store.active, s.ticker, s.timers, s.tabs))
      = some (false, none, [], []) ∧
    (run (start (initial { active := false, timeout := 900, tick := 60, pinned := true }))
      [Event.resolved Cont.startReady, Event.resolved Cont.startGet,
        Event.resolved (Cont.setStateSet false),
        Event.tabCreated ⟨5, true, false⟩]).map
        (fun s => (s.store.active, s.ticker, s.timers, s.tabs))
      = some (false, none, [], [(5, ⟨5, 0⟩)]) :=
  ⟨rfl, rfl⟩

/-- C11, amended: in every state reachable from the module start by any
sequence of events, an id has an entry only if it was created, focus-changed or
enumerated by an enable query and has since then neither been removed nor been
cleared by a completed disable transition; and the idle table is empty in the
state a disable transition has just completed in. -/
theorem entry_only_if_known_since_last_clear (persisted : Settings) (es : List Event)
    (s : State) (h : run (start (initial persisted)) es = some s) :
    (∀ k, k ∈ tabKeys s.tabs → knownAfter k false es = true) ∧
    (∀ pre, es = pre ++ [Event.resolved (Cont.setStateSet false)] → s.tabs = []) := by
  constructor
  · intro k hk
    refine run_known k es _ s false h ?_ hk
    intro h0
    simp [start, initial, tabKeys] at h0
  · intro pre hpre
    subst hpre
    rw [run_append] at h
    cases hp : run (start (initial persisted)) pre with
    | none => simp [hp] at h
    | some s0 =>
      rw [hp] at h
      simp only [Option.some_bind, run] at h
      cases hs : step s0 (Event.resolved (Cont.setStateSet false)) with
      | none => simp [hs] at h
      | some s1 =>
        rw [hs] at h
        simp only [Option.some_bind, Option.some.injEq] at h
        subst h
        simp only [step] at hs
        split_ifs at hs
        cases hs
        simp [setExtensionStateAfterSet]

/-- Witness for C11 amended: in the sample run tabs 2 and 7 have entries; tab 1
was enumerated and then removed. -/
theorem entry_only_if_known_since_last_clear_witness :
    run (start (initial DEFAULT_SETTINGS)) sampleRun = some sampleState ∧
    tabKeys sampleState.tabs = [2, 7] ∧
    knownAfter 1 false sampleRun = false ∧
    ((∀ k, k ∈ tabKeys sampleState.tabs → knownAfter k false sampleRun = true) ∧
    (∀ pre, sampleRun = pre ++ [Event.resolved (Cont.setStateSet false)] →
      sampleState.tabs = [])) :=
  ⟨rfl, rfl, rfl,
    entry_only_if_known_since_last_clear DEFAULT_SETTINGS sampleRun sampleState rfl⟩

/-- C18: in every state reachable from the module start by any sequence of
events, every entry of the idle table stores the key it is filed under in its
`id` field; consequently, for any settings and enumeration, the sweep loop run
from that state looks every key up successfully, finds under the stored id the
entry it is iterating over, ends without exception, and its result is the table
with every entry updated on its own. -/
theorem reachable_entries_store_own_key (persisted : Settings) (es : List Event) (s : State)
    (h : run (start (initial persisted)) es = some s) :
    (∀ k e, tabGet s.tabs k = some e → e.id = k) ∧
    (∀ key ∈ tabKeys s.tabs, ∃ tab, tabGet s.tabs key = some tab ∧
      tabGet s.tabs tab.id = some tab) ∧
    ∀ (skipPinned : Bool) (tickTime tabTimeout : Int) (fetchedTabs : List FetchedTab),
      ∃ s1, sweepKeys (activeTabs skipPinned fetchedTabs) tickTime tabTimeout
          (tabKeys s.tabs) s = Except.ok s1 ∧
        s1.tabs = s.tabs.filterMap
          (sweepEntry (activeTabs skipPinned fetchedTabs) tickTime tabTimeout) := by
  have hwf : TabsWF s.tabs := reachable_TabsWF persisted es s h
  refine ⟨fun k e he => entry_id_of_tabGet hwf he, ?_, ?_⟩
  · intro key hkey
    obtain ⟨tab, htab⟩ := tabGet_of_mem_tabKeys s.tabs key hkey
    refine ⟨tab, htab, ?_⟩
    rw [entry_id_of_tabGet hwf htab]
    exact htab
  · intro skipPinned tickTime tabTimeout fetchedTabs
    have hclosed := sweepKeys_closed (activeTabs skipPinned fetchedTabs) tickTime tabTimeout
      s.tabs [] s rfl hwf.nodup hwf.2
    exact ⟨_, hclosed, rfl⟩

/-- Witness for C18: the extension starts enabled with tabs 2 and 1, tab 7 is
created, tab 2 is focused and tab 1 is removed. -/
theorem reachable_entries_store_own_key_witness :
    run (start (initial DEFAULT_SETTINGS)) sampleRun = some sampleState ∧
    ((∀ k e, tabGet sampleState.tabs k = some e → e.id = k) ∧
    (∀ key ∈ tabKeys sampleState.tabs, ∃ tab, tabGet sampleState.tabs key = some tab ∧
      tabGet sampleState.tabs tab.id = some tab) ∧
    ∀ (skipPinned : Bool) (tickTime tabTimeout : Int) (fetchedTabs : List FetchedTab),
      ∃ s1, sweepKeys (activeTabs skipPinned fetchedTabs) tickTime tabTimeout
          (tabKeys sampleState.tabs) sampleState = Except.ok s1 ∧
        s1.tabs = sampleState.tabs.filterMap
          (sweepEntry (activeTabs skipPinned fetchedTabs) tickTime tabTimeout)) :=
  ⟨rfl, reachable_entries_store_own_key DEFAULT_SETTINGS sampleRun sampleState rfl⟩

/-! ## Discard requests -/

/-- C16: from a well-formed idle table, over any run of operations that holds
no created, focus-changed or enable event for a given id (sweeps with any
settings and enumeration, removals and events for other ids included), at most
one discard request is issued for that id; and within a single sweep no id is
passed to `chrome.tabs.discard` more than once. -/
theorem discard_at_most_once_without_refresh (s : State) (k : TabId) (ops : List TabOp)
    (hwf : TabsWF s.tabs) (hops : ∀ op ∈ ops, op.noReviveOf k = true) :
    (∃ d, (runOps s ops).discards = s.discards ++ d ∧ d.count k ≤ 1) ∧
    ∀ (skipPinned : Bool) (tickTime tabTimeout : Int) (fetchedTabs : List FetchedTab),
      ∃ d, (sweep skipPinned tickTime tabTimeout fetchedTabs s).discards = s.discards ++ d ∧
        d.Nodup := by
  refine ⟨runOps_discards_at_most_once k ops s hwf hops, ?_⟩
  intro skipPinned tickTime tabTimeout fetchedTabs
  refine ⟨parkedKeys (activeTabs skipPinned fetchedTabs) tickTime tabTimeout s.tabs, ?_,
    parkedKeys_nodup _ _ _ _ hwf.nodup⟩
  rw [sweep_closed _ _ _ _ _ hwf]

/-- Witness for C16: tab 1 has idle time 840 and is parked by the first of
three sweeps; the later sweeps and its removal issue no further request. -/
theorem discard_at_most_once_without_refresh_witness :
    TabsWF (stateWithTabs [(1, ⟨1, 840⟩), (2, ⟨2, 0⟩)]).tabs ∧
    (∀ op ∈ [TabOp.sweep true 60 900 [⟨1, false, false⟩, ⟨2, true, false⟩],
        TabOp.sweep true 60 900 [⟨2, true, false⟩], TabOp.removed 1,
        TabOp.sweep true 60 900 [⟨2, true, false⟩]], op.noReviveOf 1 = true) ∧
    (runOps (stateWithTabs [(1, ⟨1, 840⟩), (2, ⟨2, 0⟩)])
      [TabOp.sweep true 60 900 [⟨1, false, false⟩, ⟨2, true, false⟩],
        TabOp.sweep true 60 900 [⟨2, true, false⟩], TabOp.removed 1,
        TabOp.sweep true 60 900 [⟨2, true, false⟩]]).discards = [1] ∧
    ((∃ d, (runOps (stateWithTabs [(1, ⟨1, 840⟩), (2, ⟨2, 0⟩)])
      [TabOp.sweep true 60 900 [⟨1, false, false⟩, ⟨2, true, false⟩],
        TabOp.sweep true 60 900 [⟨2, true, false⟩], TabOp.removed 1,
        TabOp.sweep true 60 900 [⟨2, true, false⟩]]).discards
          = (stateWithTabs [(1, ⟨1, 840⟩), (2, ⟨2, 0⟩)]).discards ++ d ∧ d.count 1 ≤ 1) ∧
    ∀ (skipPinned : Bool) (tickTime tabTimeout : Int) (fetchedTabs : List FetchedTab),
      ∃ d, (sweep skipPinned tickTime tabTimeout fetchedTabs
          (stateWithTabs [(1, ⟨1, 840⟩), (2, ⟨2, 0⟩)])).discards
            = (stateWithTabs [(1, ⟨1, 840⟩), (2, ⟨2, 0⟩)]).discards ++ d ∧
        d.Nodup) :=
  ⟨by decide, by decide, by decide,
    discard_at_most_once_without_refresh (stateWithTabs [(1, ⟨1, 840⟩), (2, ⟨2, 0⟩)]) 1
      [TabOp.sweep true 60 900 [⟨1, false, false⟩, ⟨2, true, false⟩],
        TabOp.sweep true 60 900 [⟨2, true, false⟩], TabOp.removed 1,
        TabOp.sweep true 60 900 [⟨2, true, false⟩]] (by decide) (by decide)⟩

/-- C12: in every state reachable from the module start by a sequence of events
whose sweeps all run with a tick setting >= 0, every entry of the idle table has
idle time >= 0; and in every reachable state, a step that keeps an entry leaves
its idle time unchanged, sets it to 0, or, when the step is a sweep, adds the
tick setting of that sweep to it. -/
theorem idle_time_nonneg_and_changes (persisted : Settings) (es : List Event) (s : State)
    (h : run (start (initial persisted)) es = some s)
    (hes : ∀ e ∈ es, e.sweepTickNonneg = true) :
    (∀ k e, tabGet s.tabs k = some e → 0 ≤ e.time) ∧
    ∀ (ev : Event) (s1 : State), step s ev = some s1 →
      ∀ (k : TabId) (e0 e1 : Entry), tabGet s.tabs k = some e0 → tabGet s1.tabs k = some e1 →
        e1.time = e0.time ∨ e1.time = 0 ∨
          ∃ p t o f, ev = Event.queryReturned (Cont.tickQuery p t o) f ∧
            e1.time = e0.time + t := by
  have hwf0 : TabsWF (start (initial persisted)).tabs :=
    ⟨List.Pairwise.nil, by simp [start, initial]⟩
  have hwf : TabsWF s.tabs := run_preserves_TabsWF es _ s h hwf0
  constructor
  · intro k e he
    have hpos := run_preserves_time_nonneg es _ s h hwf0 hes (by simp [start, initial])
    exact hpos (k, e) (mem_tabKeys_of_tabGet s.tabs k e he)
  · intro ev s1 hstep k e0 e1 h0 h1
    exact step_time_change s s1 ev hstep hwf k e0 e1 h0 h1

/-- Witness for C12: the sample run with one sweep; tab 7 has idle time 60. -/
theorem idle_time_nonneg_and_changes_witness :
    run (start (initial DEFAULT_SETTINGS)) sampleSweepRun = some sampleSweepState ∧
    (∀ e ∈ sampleSweepRun, e.sweepTickNonneg = true) ∧
    tabGet sampleSweepState.tabs 7 = some ⟨7, 60⟩ ∧
    ((∀ k e, tabGet sampleSweepState.tabs k = some e → 0 ≤ e.time) ∧
    ∀ (ev : Event) (s1 : State), step sampleSweepState ev = some s1 →
      ∀ (k : TabId) (e0 e1 : Entry), tabGet sampleSweepState.tabs k = some e0 →
        tabGet s1.tabs k = some e1 →
        e1.time = e0.time ∨ e1.time = 0 ∨
          ∃ p t o f, ev = Event.queryReturned (Cont.tickQuery p t o) f ∧
            e1.time = e0.time + t) :=
  ⟨rfl, by decide, rfl,
    idle_time_nonneg_and_changes DEFAULT_SETTINGS sampleSweepRun sampleSweepState rfl
      (by decide)⟩

/-! ## The toggle and the timer -/

/-- C15: from every state, with `b` the persisted `active` flag: the click
listener reads the flag and calls `setExtensionState(not b)`; one toggle run to
its end leaves the persisted flag equal to `not b`; two toggles run to their
ends one after the other leave it equal to `b`; and every
`setExtensionState(newState)` run to its end leaves it equal to `newState`. -/
theorem toggle_flips_persisted_flag (s : State) (f1 f2 : List FetchedTab) (q1 q2 : Bool)
    (newState : Bool) :
    (∃ s0, run s [Event.iconClicked, Event.resolved Cont.clickGet]
        = some (setExtensionState (!s.store.active) s0) ∧ s0.store = s.store) ∧
    (∃ s1, run s (toggleEvents s.store.active f1 q1) = some s1 ∧
      s1.store.active = !s.store.active) ∧
    (∃ s2, run s (toggleEvents s.store.active f1 q1 ++ toggleEvents (!s.store.active) f2 q2)
        = some s2 ∧ s2.store.active = s.store.active) ∧
    (∃ s3, run (setExtensionState newState s)
        (if newState then enableEvents f1 q1 else [Event.resolved (Cont.setStateSet false)])
          = some s3 ∧ s3.store.active = newState) := by
  obtain ⟨s1, hrun1, hst1⟩ := toggle_run s f1 q1
  have hact1 : s1.store.active = !s.store.active := by rw [hst1]
  refine ⟨click_run s, ⟨s1, hrun1, hact1⟩, ?_, ?_⟩
  · obtain ⟨s2, hrun2, hst2⟩ := toggle_run s1 f2 q2
    refine ⟨s2, ?_, ?_⟩
    · rw [run_append, hrun1, ← hact1]
      exact hrun2
    · rw [hst2]
      simp [hact1]
  · cases newState with
    | false =>
      obtain ⟨s3, hstep, _, _, _, hst, _⟩ := disable_run s
      refine ⟨s3, ?_, by rw [hst]⟩
      simp only [Bool.false_eq_true, if_false, run]
      rw [hstep]
      rfl
    | true =>
      obtain ⟨s3, hrun, _, hst, _⟩ := enable_run s f1 q1
      exact ⟨s3, by simpa using hrun, by rw [hst]⟩

/-- C13 fails on the code. First run: the extension is enabled with timer 1
armed; the icon is clicked and `setExtensionState(false)` is called; timer 1
fires and `tick` waits for its settings; the disable completes with no timer
armed; the waiting `tick` resumes and arms timer 2; a second toggle enables the
extension again and arms timer 3: timers 2 and 3 are pending together.
Second run: the extension starts disabled; the icon is clicked twice before
either click has read the flag; both clicks call `setExtensionState(true)` and
each arms a timer: timers 1 and 2 are pending together. -/
theorem two_timers_pending :
    (run (start (initial DEFAULT_SETTINGS))
      [Event.resolved Cont.startReady, Event.resolved Cont.startGet,
        Event.resolved (Cont.setStateSet true),
        Event.queryReturned Cont.enableQuery [⟨1, true, false⟩],
        Event.resolved Cont.enableGet]).map (fun s => (s.ticker, s.timers))
      = some (some 1, [1]) ∧
    (run (start (initial DEFAULT_SETTINGS))
      [Event.resolved Cont.startReady, Event.resolved Cont.startGet,
        Event.resolved (Cont.setStateSet true),
        Event.queryReturned Cont.enableQuery [⟨1, true, false⟩],
        Event.resolved Cont.enableGet,
        Event.iconClicked, Event.resolved Cont.clickGet,
        Event.timerFired 1,
        Event.resolved (Cont.setStateSet false)]).map
        (fun s => (s.store.active, s.ticker, s.timers))
      = some (false, none, []) ∧
    (run (start (initial DEFAULT_SETTINGS))
      [Event.resolved Cont.startReady, Event.resolved Cont.startGet,
        Event.resolved (Cont.setStateSet true),
        Event.queryReturned Cont.enableQuery [⟨1, true, false⟩],
        Event.resolved Cont.enableGet,
        Event.iconClicked, Event.resolved Cont.clickGet,
        Event.timerFired 1,
        Event.resolved (Cont.setStateSet false),
        Event.resolved Cont.tickGet,
        Event.iconClicked, Event.resolved Cont.clickGet,
        Event.resolved (Cont.setStateSet true),
        Event.queryReturned Cont.enableQuery [⟨1, true, false⟩],
        Event.resolved Cont.enableGet]).map (fun s => (s.store.active, s.ticker, s.timers))
      = some (true, some 3, [2, 3]) ∧
    (run (start (initial { active := false, timeout := 900, tick := 60, pinned := true }))
      [Event.resolved Cont.startReady, Event.resolved Cont.startGet,
        Event.resolved (Cont.setStateSet false),
        Event.iconClicked, Event.iconClicked,
        Event.resolved Cont.clickGet, Event.resolved Cont.clickGet,
        Event.resolved (Cont.setStateSet true), Event.resolved (Cont.setStateSet true),
        Event.resolved Cont.enableGet,
        Event.resolved Cont.enableGet]).map (fun s => (s.store.active, s.ticker, s.timers))
      = some (true, some 2, [1, 2]) :=
  ⟨rfl, rfl, rfl, rfl⟩

end TabMemFree
